import Mathlib

/-!
# CarsInquires: the `Footer` and `ListingCard` components

A shallow embedding of `src/frontend/src/components/Footer.jsx` and
`src/frontend/src/components/ListingCard.jsx`.

* JavaScript strings are Lean `String`s (sequences of code points); the work is done on
  their `data : List Char`. The Unicode data are those of version 14.0.
* Markup returned by a component is a `Node` tree; a component whose evaluation can throw
  returns `Except RenderError Node`.
* The JavaScript built-ins the components call (`toLowerCase`, `replace` with the regular
  expression `/\s+/g`, `Number::toString` in a template literal, `toLocaleString`) are
  given as executable definitions: the Unicode case conversion with its tables, and
  the shortest decimal text of an IEEE 754 binary64 value.
* A Number that is an integer is a natural number, or an integer, that conversion to
  binary64 leaves unchanged.
-/

namespace CarsInquires

set_option maxRecDepth 100000

/-! ## JavaScript string primitives -/

/-- The character class `\s` of an ECMAScript regular expression: the `WhiteSpace` code
points (TAB, VT, FF, ZWNBSP and the Unicode space separators) together with the
`LineTerminator` code points (LF, CR, LS, PS). -/
def isWhiteSpace (c : Char) : Bool :=
  c.toNat == 0x09 || c.toNat == 0x0A || c.toNat == 0x0B || c.toNat == 0x0C ||
  c.toNat == 0x0D || c.toNat == 0x20 || c.toNat == 0xA0 || c.toNat == 0x1680 ||
  (0x2000 ≤ c.toNat && c.toNat ≤ 0x200A) ||
  c.toNat == 0x2028 || c.toNat == 0x2029 || c.toNat == 0x202F || c.toNat == 0x205F ||
  c.toNat == 0x3000 || c.toNat == 0xFEFF

/-- The one-to-one lowercase mappings of the Unicode Character Database (version 14.0),
written as runs `(first, last, step, image)`: each code point `first + k * step` up to
`last` has the lowercase `image + k * step`. A code point in no run is its own
lowercase. -/
def lowerCaseRuns : List (Nat × Nat × Nat × Nat) :=
  [(65, 90, 1, 97), (192, 214, 1, 224), (216, 222, 1, 248), (256, 302, 2, 257),
    (306, 310, 2, 307), (313, 327, 2, 314), (330, 374, 2, 331), (376, 376, 1, 255),
    (377, 381, 2, 378), (385, 385, 1, 595), (386, 388, 2, 387), (390, 390, 1, 596),
    (391, 391, 1, 392), (393, 394, 1, 598), (395, 395, 1, 396), (398, 398, 1, 477),
    (399, 399, 1, 601), (400, 400, 1, 603), (401, 401, 1, 402), (403, 403, 1, 608),
    (404, 404, 1, 611), (406, 406, 1, 617), (407, 407, 1, 616), (408, 408, 1, 409),
    (412, 412, 1, 623), (413, 413, 1, 626), (415, 415, 1, 629), (416, 420, 2, 417),
    (422, 422, 1, 640), (423, 423, 1, 424), (425, 425, 1, 643), (428, 428, 1, 429),
    (430, 430, 1, 648), (431, 431, 1, 432), (433, 434, 1, 650), (435, 437, 2, 436),
    (439, 439, 1, 658), (440, 440, 1, 441), (444, 444, 1, 445), (452, 452, 1, 454),
    (453, 453, 1, 454), (455, 455, 1, 457), (456, 456, 1, 457), (458, 458, 1, 460),
    (459, 475, 2, 460), (478, 494, 2, 479), (497, 497, 1, 499), (498, 500, 2, 499),
    (502, 502, 1, 405), (503, 503, 1, 447), (504, 542, 2, 505), (544, 544, 1, 414),
    (546, 562, 2, 547), (570, 570, 1, 11365), (571, 571, 1, 572), (573, 573, 1, 410),
    (574, 574, 1, 11366), (577, 577, 1, 578), (579, 579, 1, 384), (580, 580, 1, 649),
    (581, 581, 1, 652), (582, 590, 2, 583), (880, 882, 2, 881), (886, 886, 1, 887),
    (895, 895, 1, 1011), (902, 902, 1, 940), (904, 906, 1, 941), (908, 908, 1, 972),
    (910, 911, 1, 973), (913, 929, 1, 945), (931, 939, 1, 963), (975, 975, 1, 983),
    (984, 1006, 2, 985), (1012, 1012, 1, 952), (1015, 1015, 1, 1016), (1017, 1017, 1, 1010),
    (1018, 1018, 1, 1019), (1021, 1023, 1, 891), (1024, 1039, 1, 1104), (1040, 1071, 1, 1072),
    (1120, 1152, 2, 1121), (1162, 1214, 2, 1163), (1216, 1216, 1, 1231), (1217, 1229, 2, 1218),
    (1232, 1326, 2, 1233), (1329, 1366, 1, 1377), (4256, 4293, 1, 11520),
    (4295, 4295, 1, 11559), (4301, 4301, 1, 11565), (5024, 5103, 1, 43888),
    (5104, 5109, 1, 5112), (7312, 7354, 1, 4304), (7357, 7359, 1, 4349), (7680, 7828, 2, 7681),
    (7838, 7838, 1, 223), (7840, 7934, 2, 7841), (7944, 7951, 1, 7936), (7960, 7965, 1, 7952),
    (7976, 7983, 1, 7968), (7992, 7999, 1, 7984), (8008, 8013, 1, 8000), (8025, 8031, 2, 8017),
    (8040, 8047, 1, 8032), (8072, 8079, 1, 8064), (8088, 8095, 1, 8080), (8104, 8111, 1, 8096),
    (8120, 8121, 1, 8112), (8122, 8123, 1, 8048), (8124, 8124, 1, 8115), (8136, 8139, 1, 8050),
    (8140, 8140, 1, 8131), (8152, 8153, 1, 8144), (8154, 8155, 1, 8054), (8168, 8169, 1, 8160),
    (8170, 8171, 1, 8058), (8172, 8172, 1, 8165), (8184, 8185, 1, 8056), (8186, 8187, 1, 8060),
    (8188, 8188, 1, 8179), (8486, 8486, 1, 969), (8490, 8490, 1, 107), (8491, 8491, 1, 229),
    (8498, 8498, 1, 8526), (8544, 8559, 1, 8560), (8579, 8579, 1, 8580), (9398, 9423, 1, 9424),
    (11264, 11311, 1, 11312), (11360, 11360, 1, 11361), (11362, 11362, 1, 619),
    (11363, 11363, 1, 7549), (11364, 11364, 1, 637), (11367, 11371, 2, 11368),
    (11373, 11373, 1, 593), (11374, 11374, 1, 625), (11375, 11375, 1, 592),
    (11376, 11376, 1, 594), (11378, 11378, 1, 11379), (11381, 11381, 1, 11382),
    (11390, 11391, 1, 575), (11392, 11490, 2, 11393), (11499, 11501, 2, 11500),
    (11506, 11506, 1, 11507), (42560, 42604, 2, 42561), (42624, 42650, 2, 42625),
    (42786, 42798, 2, 42787), (42802, 42862, 2, 42803), (42873, 42875, 2, 42874),
    (42877, 42877, 1, 7545), (42878, 42886, 2, 42879), (42891, 42891, 1, 42892),
    (42893, 42893, 1, 613), (42896, 42898, 2, 42897), (42902, 42920, 2, 42903),
    (42922, 42922, 1, 614), (42923, 42923, 1, 604), (42924, 42924, 1, 609),
    (42925, 42925, 1, 620), (42926, 42926, 1, 618), (42928, 42928, 1, 670),
    (42929, 42929, 1, 647), (42930, 42930, 1, 669), (42931, 42931, 1, 43859),
    (42932, 42946, 2, 42933), (42948, 42948, 1, 42900), (42949, 42949, 1, 642),
    (42950, 42950, 1, 7566), (42951, 42953, 2, 42952), (42960, 42960, 1, 42961),
    (42966, 42968, 2, 42967), (42997, 42997, 1, 42998), (65313, 65338, 1, 65345),
    (66560, 66599, 1, 66600), (66736, 66771, 1, 66776), (66928, 66938, 1, 66967),
    (66940, 66954, 1, 66979), (66956, 66962, 1, 66995), (66964, 66965, 1, 67003),
    (68736, 68786, 1, 68800), (71840, 71871, 1, 71872), (93760, 93791, 1, 93792),
    (125184, 125217, 1, 125218)]

/-- The code points with the Unicode property `Case_Ignorable` (version 14.0), as
ranges `(first, last)`. -/
def caseIgnorableRanges : List (Nat × Nat) :=
  [(39, 39), (46, 46), (58, 58), (94, 94), (96, 96), (168, 168), (173, 173), (175, 175),
    (180, 180), (183, 184), (688, 879), (884, 885), (890, 890), (900, 901), (903, 903),
    (1155, 1161), (1369, 1369), (1375, 1375), (1425, 1469), (1471, 1471), (1473, 1474),
    (1476, 1477), (1479, 1479), (1524, 1524), (1536, 1541), (1552, 1562), (1564, 1564),
    (1600, 1600), (1611, 1631), (1648, 1648), (1750, 1757), (1759, 1768), (1770, 1773),
    (1807, 1807), (1809, 1809), (1840, 1866), (1958, 1968), (2027, 2037), (2042, 2042),
    (2045, 2045), (2070, 2093), (2137, 2139), (2184, 2184), (2192, 2193), (2200, 2207),
    (2249, 2306), (2362, 2362), (2364, 2364), (2369, 2376), (2381, 2381), (2385, 2391),
    (2402, 2403), (2417, 2417), (2433, 2433), (2492, 2492), (2497, 2500), (2509, 2509),
    (2530, 2531), (2558, 2558), (2561, 2562), (2620, 2620), (2625, 2626), (2631, 2632),
    (2635, 2637), (2641, 2641), (2672, 2673), (2677, 2677), (2689, 2690), (2748, 2748),
    (2753, 2757), (2759, 2760), (2765, 2765), (2786, 2787), (2810, 2815), (2817, 2817),
    (2876, 2876), (2879, 2879), (2881, 2884), (2893, 2893), (2901, 2902), (2914, 2915),
    (2946, 2946), (3008, 3008), (3021, 3021), (3072, 3072), (3076, 3076), (3132, 3132),
    (3134, 3136), (3142, 3144), (3146, 3149), (3157, 3158), (3170, 3171), (3201, 3201),
    (3260, 3260), (3263, 3263), (3270, 3270), (3276, 3277), (3298, 3299), (3328, 3329),
    (3387, 3388), (3393, 3396), (3405, 3405), (3426, 3427), (3457, 3457), (3530, 3530),
    (3538, 3540), (3542, 3542), (3633, 3633), (3636, 3642), (3654, 3662), (3761, 3761),
    (3764, 3772), (3782, 3782), (3784, 3789), (3864, 3865), (3893, 3893), (3895, 3895),
    (3897, 3897), (3953, 3966), (3968, 3972), (3974, 3975), (3981, 3991), (3993, 4028),
    (4038, 4038), (4141, 4144), (4146, 4151), (4153, 4154), (4157, 4158), (4184, 4185),
    (4190, 4192), (4209, 4212), (4226, 4226), (4229, 4230), (4237, 4237), (4253, 4253),
    (4348, 4348), (4957, 4959), (5906, 5908), (5938, 5939), (5970, 5971), (6002, 6003),
    (6068, 6069), (6071, 6077), (6086, 6086), (6089, 6099), (6103, 6103), (6109, 6109),
    (6155, 6159), (6211, 6211), (6277, 6278), (6313, 6313), (6432, 6434), (6439, 6440),
    (6450, 6450), (6457, 6459), (6679, 6680), (6683, 6683), (6742, 6742), (6744, 6750),
    (6752, 6752), (6754, 6754), (6757, 6764), (6771, 6780), (6783, 6783), (6823, 6823),
    (6832, 6862), (6912, 6915), (6964, 6964), (6966, 6970), (6972, 6972), (6978, 6978),
    (7019, 7027), (7040, 7041), (7074, 7077), (7080, 7081), (7083, 7085), (7142, 7142),
    (7144, 7145), (7149, 7149), (7151, 7153), (7212, 7219), (7222, 7223), (7288, 7293),
    (7376, 7378), (7380, 7392), (7394, 7400), (7405, 7405), (7412, 7412), (7416, 7417),
    (7468, 7530), (7544, 7544), (7579, 7679), (8125, 8125), (8127, 8129), (8141, 8143),
    (8157, 8159), (8173, 8175), (8189, 8190), (8203, 8207), (8216, 8217), (8228, 8228),
    (8231, 8231), (8234, 8238), (8288, 8292), (8294, 8303), (8305, 8305), (8319, 8319),
    (8336, 8348), (8400, 8432), (11388, 11389), (11503, 11505), (11631, 11631), (11647, 11647),
    (11744, 11775), (11823, 11823), (12293, 12293), (12330, 12333), (12337, 12341),
    (12347, 12347), (12441, 12446), (12540, 12542), (40981, 40981), (42232, 42237),
    (42508, 42508), (42607, 42610), (42612, 42621), (42623, 42623), (42652, 42655),
    (42736, 42737), (42752, 42785), (42864, 42864), (42888, 42890), (42994, 42996),
    (43000, 43001), (43010, 43010), (43014, 43014), (43019, 43019), (43045, 43046),
    (43052, 43052), (43204, 43205), (43232, 43249), (43263, 43263), (43302, 43309),
    (43335, 43345), (43392, 43394), (43443, 43443), (43446, 43449), (43452, 43453),
    (43471, 43471), (43493, 43494), (43561, 43566), (43569, 43570), (43573, 43574),
    (43587, 43587), (43596, 43596), (43632, 43632), (43644, 43644), (43696, 43696),
    (43698, 43700), (43703, 43704), (43710, 43711), (43713, 43713), (43741, 43741),
    (43756, 43757), (43763, 43764), (43766, 43766), (43867, 43871), (43881, 43883),
    (44005, 44005), (44008, 44008), (44013, 44013), (64286, 64286), (64434, 64450),
    (65024, 65039), (65043, 65043), (65056, 65071), (65106, 65106), (65109, 65109),
    (65279, 65279), (65287, 65287), (65294, 65294), (65306, 65306), (65342, 65342),
    (65344, 65344), (65392, 65392), (65438, 65439), (65507, 65507), (65529, 65531),
    (66045, 66045), (66272, 66272), (66422, 66426), (67456, 67461), (67463, 67504),
    (67506, 67514), (68097, 68099), (68101, 68102), (68108, 68111), (68152, 68154),
    (68159, 68159), (68325, 68326), (68900, 68903), (69291, 69292), (69446, 69456),
    (69506, 69509), (69633, 69633), (69688, 69702), (69744, 69744), (69747, 69748),
    (69759, 69761), (69811, 69814), (69817, 69818), (69821, 69821), (69826, 69826),
    (69837, 69837), (69888, 69890), (69927, 69931), (69933, 69940), (70003, 70003),
    (70016, 70017), (70070, 70078), (70089, 70092), (70095, 70095), (70191, 70193),
    (70196, 70196), (70198, 70199), (70206, 70206), (70367, 70367), (70371, 70378),
    (70400, 70401), (70459, 70460), (70464, 70464), (70502, 70508), (70512, 70516),
    (70712, 70719), (70722, 70724), (70726, 70726), (70750, 70750), (70835, 70840),
    (70842, 70842), (70847, 70848), (70850, 70851), (71090, 71093), (71100, 71101),
    (71103, 71104), (71132, 71133), (71219, 71226), (71229, 71229), (71231, 71232),
    (71339, 71339), (71341, 71341), (71344, 71349), (71351, 71351), (71453, 71455),
    (71458, 71461), (71463, 71467), (71727, 71735), (71737, 71738), (71995, 71996),
    (71998, 71998), (72003, 72003), (72148, 72151), (72154, 72155), (72160, 72160),
    (72193, 72202), (72243, 72248), (72251, 72254), (72263, 72263), (72273, 72278),
    (72281, 72283), (72330, 72342), (72344, 72345), (72752, 72758), (72760, 72765),
    (72767, 72767), (72850, 72871), (72874, 72880), (72882, 72883), (72885, 72886),
    (73009, 73014), (73018, 73018), (73020, 73021), (73023, 73029), (73031, 73031),
    (73104, 73105), (73109, 73109), (73111, 73111), (73459, 73460), (78896, 78904),
    (92912, 92916), (92976, 92982), (92992, 92995), (94031, 94031), (94095, 94111),
    (94176, 94177), (94179, 94180), (110576, 110579), (110581, 110587), (110589, 110590),
    (113821, 113822), (113824, 113827), (118528, 118573), (118576, 118598), (119143, 119145),
    (119155, 119170), (119173, 119179), (119210, 119213), (119362, 119364), (121344, 121398),
    (121403, 121452), (121461, 121461), (121476, 121476), (121499, 121503), (121505, 121519),
    (122880, 122886), (122888, 122904), (122907, 122913), (122915, 122916), (122918, 122922),
    (123184, 123197), (123566, 123566), (123628, 123631), (125136, 125142), (125252, 125259),
    (127995, 127999), (917505, 917505), (917536, 917631), (917760, 917999)]

/-- The code points with the Unicode property `Cased` (version 14.0), as ranges
`(first, last)`. -/
def casedRanges : List (Nat × Nat) :=
  [(65, 90), (97, 122), (170, 170), (181, 181), (186, 186), (192, 214), (216, 246), (248, 442),
    (444, 447), (452, 659), (661, 696), (704, 705), (736, 740), (837, 837), (880, 883),
    (886, 887), (890, 893), (895, 895), (902, 902), (904, 906), (908, 908), (910, 929),
    (931, 1013), (1015, 1153), (1162, 1327), (1329, 1366), (1376, 1416), (4256, 4293),
    (4295, 4295), (4301, 4301), (4304, 4346), (4349, 4351), (5024, 5109), (5112, 5117),
    (7296, 7304), (7312, 7354), (7357, 7359), (7424, 7615), (7680, 7957), (7960, 7965),
    (7968, 8005), (8008, 8013), (8016, 8023), (8025, 8025), (8027, 8027), (8029, 8029),
    (8031, 8061), (8064, 8116), (8118, 8124), (8126, 8126), (8130, 8132), (8134, 8140),
    (8144, 8147), (8150, 8155), (8160, 8172), (8178, 8180), (8182, 8188), (8305, 8305),
    (8319, 8319), (8336, 8348), (8450, 8450), (8455, 8455), (8458, 8467), (8469, 8469),
    (8473, 8477), (8484, 8484), (8486, 8486), (8488, 8488), (8490, 8493), (8495, 8500),
    (8505, 8505), (8508, 8511), (8517, 8521), (8526, 8526), (8544, 8575), (8579, 8580),
    (9398, 9449), (11264, 11492), (11499, 11502), (11506, 11507), (11520, 11557),
    (11559, 11559), (11565, 11565), (42560, 42605), (42624, 42653), (42786, 42887),
    (42891, 42894), (42896, 42954), (42960, 42961), (42963, 42963), (42965, 42969),
    (42997, 42998), (43000, 43002), (43824, 43866), (43868, 43880), (43888, 43967),
    (64256, 64262), (64275, 64279), (65313, 65338), (65345, 65370), (66560, 66639),
    (66736, 66771), (66776, 66811), (66928, 66938), (66940, 66954), (66956, 66962),
    (66964, 66965), (66967, 66977), (66979, 66993), (66995, 67001), (67003, 67004),
    (67456, 67456), (67459, 67461), (67463, 67504), (67506, 67514), (68736, 68786),
    (68800, 68850), (71840, 71903), (93760, 93823), (119808, 119892), (119894, 119964),
    (119966, 119967), (119970, 119970), (119973, 119974), (119977, 119980), (119982, 119993),
    (119995, 119995), (119997, 120003), (120005, 120069), (120071, 120074), (120077, 120084),
    (120086, 120092), (120094, 120121), (120123, 120126), (120128, 120132), (120134, 120134),
    (120138, 120144), (120146, 120485), (120488, 120512), (120514, 120538), (120540, 120570),
    (120572, 120596), (120598, 120628), (120630, 120654), (120656, 120686), (120688, 120712),
    (120714, 120744), (120746, 120770), (120772, 120779), (122624, 122633), (122635, 122654),
    (125184, 125251), (127280, 127305), (127312, 127337), (127344, 127369)]

/-- Whether a code point lies in one of the ranges of a table in increasing order: the
search ends at the first range that begins beyond the code point. -/
def inRanges : List (Nat × Nat) → Nat → Bool
  | [], _ => false
  | (first, last) :: rest, n =>
    if n < first then false else if n ≤ last then true else inRanges rest n

/-- The image of a code point under the run that holds it, in a table of runs in
increasing order: the search ends at the first run that begins beyond the code point. -/
def lowerCodeIn : List (Nat × Nat × Nat × Nat) → Nat → Nat
  | [], n => n
  | (first, last, step, image) :: rest, n =>
    if n < first then n
    else if n ≤ last ∧ (n - first) % step = 0 then image + (n - first)
    else lowerCodeIn rest n

/-- The Unicode property `Case_Ignorable`. -/
def isCaseIgnorable (c : Char) : Bool :=
  inRanges caseIgnorableRanges c.toNat

/-- The Unicode property `Cased`. -/
def isCased (c : Char) : Bool :=
  inRanges casedRanges c.toNat

/-- The lowercase of one code point out of context: U+0130 becomes `i` followed by
U+0307 (the one unconditional entry of `SpecialCasing` for lowercase), any other code
point becomes its one-to-one image. -/
def lowerCodePoint (c : Char) : List Char :=
  if c.toNat = 0x130 then [Char.ofNat 0x69, Char.ofNat 0x307]
  else [Char.ofNat (lowerCodeIn lowerCaseRuns c.toNat)]

/-- The second half of the `Final_Sigma` condition: after skipping case-ignorable
code points, the text goes on with a cased one. -/
def followedByCased : List Char → Bool
  | [] => false
  | c :: cs => if isCaseIgnorable c then followedByCased cs else isCased c

/-- The scan of `String.prototype.toLowerCase`. The flag tells whether, skipping
case-ignorable code points backwards, the text read so far ends with a cased one. A
capital sigma U+03A3 becomes the final sigma U+03C2 when it is preceded by a cased
letter and not followed by one, and the small sigma U+03C3 otherwise. -/
def toLowerCaseFrom : Bool → List Char → List Char
  | _, [] => []
  | afterCased, c :: cs =>
    (if c.toNat = 0x3A3 then
      (if afterCased && !followedByCased cs then [Char.ofNat 0x3C2] else [Char.ofNat 0x3C3])
    else lowerCodePoint c) ++
      toLowerCaseFrom (if isCaseIgnorable c then afterCased else isCased c) cs

/-- The method `String.prototype.toLowerCase`: the Unicode default case conversion
`toLowercase`, independent of the host locale. -/
def toLowerCase (s : String) : String :=
  ⟨toLowerCaseFrom false s.data⟩

/-- The scan performed by `replace(/\s+/g, replacement)`. The flag tells whether the
scanner is inside a match of `\s+`: a match starts at the first white-space character
met outside a match, where the replacement is emitted; being greedy it then swallows
every white-space character that follows; any other character ends the match and is
copied. -/
def replaceWhiteSpaceFrom (replacement : List Char) : Bool → List Char → List Char
  | _, [] => []
  | inMatch, c :: cs =>
    if isWhiteSpace c then
      if inMatch then replaceWhiteSpaceFrom replacement true cs
      else replacement ++ replaceWhiteSpaceFrom replacement true cs
    else c :: replaceWhiteSpaceFrom replacement false cs

/-- The call `s.replace(/\s+/g, replacement)` for a replacement text without `$`. -/
def replaceWhiteSpace (s replacement : String) : String :=
  ⟨replaceWhiteSpaceFrom replacement.data false s.data⟩

/-! ## JavaScript numbers that are integers -/

/-- The position of the leading binary digit, found by halving. -/
def floorLog2From : Nat → Nat → Nat
  | 0, _ => 0
  | fuel + 1, n => if n < 2 then 0 else floorLog2From fuel (n / 2) + 1

/-- The position of the leading binary digit of `n` (0 for `n ≤ 1`). -/
def floorLog2 (n : Nat) : Nat :=
  floorLog2From n n

/-- The conversion of a natural number to the nearest Number (IEEE 754 binary64, 53
significant binary digits, ties to the even significand), as a natural number again. -/
def roundToDouble (n : Nat) : Nat :=
  if n < 2 ^ 53 then n
  else
    if 2 ^ (floorLog2 n - 52) < 2 * (n % 2 ^ (floorLog2 n - 52)) ∨
        (2 * (n % 2 ^ (floorLog2 n - 52)) = 2 ^ (floorLog2 n - 52) ∧
          n / 2 ^ (floorLog2 n - 52) % 2 = 1) then
      (n / 2 ^ (floorLog2 n - 52) + 1) * 2 ^ (floorLog2 n - 52)
    else n / 2 ^ (floorLog2 n - 52) * 2 ^ (floorLog2 n - 52)

/-- Whether a natural number is the value of a finite Number: it is below `2^1024` and
conversion leaves it as it is. -/
def isDouble (n : Nat) : Bool :=
  floorLog2 n < 1024 && roundToDouble n == n

/-- A Number whose value is a non-negative integer. -/
structure NaturalNumber where
  val : Nat
  finite : isDouble val = true
deriving DecidableEq

/-- A Number whose value is an integer (the two zeros of binary64 are the one integer
0, which is how they print). -/
structure IntegerNumber where
  val : Int
  finite : isDouble val.natAbs = true
deriving DecidableEq

/-- A numeric literal: the Number nearest to the numeral (0 when that is not finite). -/
def NaturalNumber.ofNat (n : Nat) : NaturalNumber :=
  if h : isDouble (roundToDouble n) = true then ⟨roundToDouble n, h⟩ else ⟨0, rfl⟩

/-- A non-negative integer Number among the integer Numbers. -/
def NaturalNumber.toInteger (x : NaturalNumber) : IntegerNumber :=
  ⟨Int.ofNat x.val, x.finite⟩

instance (n : Nat) : OfNat NaturalNumber n := ⟨NaturalNumber.ofNat n⟩

instance (n : Nat) : OfNat IntegerNumber n := ⟨(NaturalNumber.ofNat n).toInteger⟩

/-- The candidates for the digits `s` of `Number::toString` when `z` zeros follow them:
the two multiples of `10^z` around `x`. A candidate counts when it converts to `x`; of
two that count, the nearer to `x` is taken and, at equal distance, the even one. -/
def pickAt (x z : Nat) : Option Nat :=
  if (1 ≤ x / 10 ^ z ∧ roundToDouble (x / 10 ^ z * 10 ^ z) = x) ∧
      roundToDouble ((x / 10 ^ z + 1) * 10 ^ z) = x then
    (if x - x / 10 ^ z * 10 ^ z < (x / 10 ^ z + 1) * 10 ^ z - x then some (x / 10 ^ z)
     else if (x / 10 ^ z + 1) * 10 ^ z - x < x - x / 10 ^ z * 10 ^ z then some (x / 10 ^ z + 1)
     else if x / 10 ^ z % 2 = 0 then some (x / 10 ^ z) else some (x / 10 ^ z + 1))
  else if 1 ≤ x / 10 ^ z ∧ roundToDouble (x / 10 ^ z * 10 ^ z) = x then some (x / 10 ^ z)
  else if roundToDouble ((x / 10 ^ z + 1) * 10 ^ z) = x then some (x / 10 ^ z + 1)
  else none

/-- The search of `Number::toString` for integers `s` and `z` with `s * 10^z` converting
to `x` and `s` of as few digits as possible: the largest `z` that has a candidate wins,
and `z = 0` always has `x` itself. -/
def shortestFrom (x : Nat) : Nat → Nat × Nat
  | 0 => (x, 0)
  | z + 1 =>
    match pickAt x (z + 1) with
    | some s => (s, z + 1)
    | none => shortestFrom x z

/-- The digits `s` and the number `z` of zeros after them for the Number `x`. -/
def shortestDecimal (x : Nat) : Nat × Nat :=
  shortestFrom x (Nat.toDigits 10 x).length

/-- The decimal digits that stand for the Number `x` when no exponent is used: the
digits of `s` followed by `z` zeros. -/
def decimalDigits (x : Nat) : List Char :=
  Nat.toDigits 10 (shortestDecimal x).1 ++ List.replicate (shortestDecimal x).2 '0'

/-- The conversion `Number::toString` (radix 10) on a Number that is a non-negative
integer: with `k` the number of digits of `s` and `n = k + z`, the digits followed by
`z` zeros when `n ≤ 21`, and the exponent form with `e+` and `n - 1` otherwise. -/
def naturalToString (x : Nat) : List Char :=
  if x = 0 then ['0']
  else if (Nat.toDigits 10 (shortestDecimal x).1).length + (shortestDecimal x).2 ≤ 21 then
    decimalDigits x
  else
    match Nat.toDigits 10 (shortestDecimal x).1 with
    | [] => []
    | [d] =>
      d :: 'e' :: '+' ::
        Nat.toDigits 10 ((Nat.toDigits 10 (shortestDecimal x).1).length
          + (shortestDecimal x).2 - 1)
    | d :: ds =>
      d :: '.' :: (ds ++ 'e' :: '+' ::
        Nat.toDigits 10 ((Nat.toDigits 10 (shortestDecimal x).1).length
          + (shortestDecimal x).2 - 1))

/-- The conversion `Number::toString` on a Number that is an integer: a negative value
is written with a leading `-`. -/
def numberToString (n : IntegerNumber) : String :=
  match n.val with
  | Int.ofNat m => ⟨naturalToString m⟩
  | Int.negSucc m => ⟨'-' :: naturalToString (m + 1)⟩

/-! ## Locale-aware number formatting -/

/-- The part of the host's default locale that `Number.prototype.toLocaleString()`
consults when it formats a non-negative integer: the digit zero of the numbering
system, the grouping separator, the size of the group next to the units and of the
groups further left, and the least number of digits to the left of the first separator
for grouping to be used. -/
structure Locale where
  zeroDigit : Char
  groupSeparator : String
  primaryGroupingSize : Nat
  secondaryGroupingSize : Nat
  minimumGroupingDigits : Nat

/-- The `en-US` locale: Latin digits, comma, groups of three from four digits on. -/
def enUS : Locale :=
  { zeroDigit := '0', groupSeparator := ",", primaryGroupingSize := 3,
    secondaryGroupingSize := 3, minimumGroupingDigits := 1 }

/-- The `de-DE` locale: Latin digits, full stop, groups of three from four digits on. -/
def deDE : Locale :=
  { zeroDigit := '0', groupSeparator := ".", primaryGroupingSize := 3,
    secondaryGroupingSize := 3, minimumGroupingDigits := 1 }

/-- The `en-IN` locale: Latin digits, comma, a group of three next to the units and
groups of two further left. -/
def enIN : Locale :=
  { zeroDigit := '0', groupSeparator := ",", primaryGroupingSize := 3,
    secondaryGroupingSize := 2, minimumGroupingDigits := 1 }

/-- The digit of the locale's numbering system for a Latin digit. -/
def localDigit (loc : Locale) (d : Char) : Char :=
  Char.ofNat (loc.zeroDigit.toNat + (d.toNat - '0'.toNat))

/-- Copies the digits and puts the separator after each digit whose number of
following digits is the primary size plus a multiple of the secondary size. -/
def insertSeparators (primary secondary : Nat) (sep : List Char) : List Char → List Char
  | [] => []
  | d :: ds =>
    if primary ≤ ds.length ∧ (ds.length - primary) % secondary = 0 then
      d :: (sep ++ insertSeparators primary secondary sep ds)
    else d :: insertSeparators primary secondary sep ds

/-- The method `Number.prototype.toLocaleString()` with no argument on a Number that is
a non-negative integer, under the host locale `loc`: the decimal digits of the Number
in the locale's numbering system, grouped when the locale groups and the digits are
enough. -/
def toLocaleString (loc : Locale) (x : NaturalNumber) : String :=
  if 0 < loc.primaryGroupingSize ∧
      loc.primaryGroupingSize + loc.minimumGroupingDigits ≤ (decimalDigits x.val).length then
    ⟨insertSeparators loc.primaryGroupingSize loc.secondaryGroupingSize
      loc.groupSeparator.data ((decimalDigits x.val).map (localDigit loc))⟩
  else ⟨(decimalDigits x.val).map (localDigit loc)⟩

/-! ## Markup -/

/-- The markup a component returns: text, a host element with its attributes, or a
`Link` of the router with its `to` target. -/
inductive Node where
  | text (s : String)
  | element (tag : String) (attrs : List (String × String)) (children : List Node)
  | link (target : String) (className : String) (children : List Node)

mutual
/-- The `to` targets of the router links of a tree, in document order. -/
def routerLinks : Node → List String
  | .text _ => []
  | .element _ _ children => routerLinksList children
  | .link target _ children => target :: routerLinksList children
/-- The `to` targets of the router links of a list of trees. -/
def routerLinksList : List Node → List String
  | [] => []
  | n :: ns => routerLinks n ++ routerLinksList ns
end

mutual
/-- The text a tree displays: its text leaves, concatenated in document order. -/
def textContent : Node → String
  | .text s => s
  | .element _ _ children => textContentList children
  | .link _ _ children => textContentList children
/-- The text a list of trees displays. -/
def textContentList : List Node → String
  | [] => ""
  | n :: ns => textContent n ++ textContentList ns
end

/-- The value of an attribute in an attribute list. -/
def attribute? (name : String) : List (String × String) → Option String
  | [] => none
  | (k, v) :: rest => if k = name then some v else attribute? name rest

mutual
/-- The `src` attributes of the `img` elements of a tree, in document order. -/
def imageSources : Node → List (Option String)
  | .text _ => []
  | .element tag attrs children =>
    if tag = "img" then attribute? "src" attrs :: imageSourcesList children
    else imageSourcesList children
  | .link _ _ children => imageSourcesList children
/-- The `src` attributes of the `img` elements of a list of trees. -/
def imageSourcesList : List Node → List (Option String)
  | [] => []
  | n :: ns => imageSources n ++ imageSourcesList ns
end

mutual
/-- The texts of the `p` elements of a tree, in document order. -/
def paragraphTexts : Node → List String
  | .text _ => []
  | .element tag _ children =>
    if tag = "p" then [textContentList children] else paragraphTextsList children
  | .link _ _ children => paragraphTextsList children
/-- The texts of the `p` elements of a list of trees. -/
def paragraphTextsList : List Node → List String
  | [] => []
  | n :: ns => paragraphTexts n ++ paragraphTextsList ns
end

/-! ## The listing record -/

/-- The `id` of a listing: a Number that is an integer, or a string. -/
inductive ListingId where
  | num (n : IntegerNumber)
  | str (s : String)
deriving DecidableEq

/-- String conversion of an id inside a template literal. -/
def ListingId.toTemplate : ListingId → String
  | .num n => numberToString n
  | .str s => s

/-- An element of `listing_images`. -/
structure ListingImage where
  path : String

/-- A record with a `name`, as `make` and `model` are. -/
structure Named where
  name : String

/-- A record with a `type`, as `transmission` and `fuel_type` are. -/
structure Typed where
  type : String

/-- The listing record handed to `ListingCard`, every field well-formed. `price` and
`mileage` are Numbers that are non-negative integers, `year` is an integer Number. -/
structure Listing where
  id : ListingId
  title : String
  price : NaturalNumber
  year : IntegerNumber
  mileage : NaturalNumber
  make : Named
  model : Named
  transmission : Typed
  fuel_type : Typed
  listing_images : List ListingImage

/-- What evaluating a component can throw. -/
inductive RenderError where
  | typeError (message : String)
deriving DecidableEq

/-! ## `ListingCard.jsx` -/

/-- The slug part of the link target:
`listing.title.toLowerCase().replace(/\s+/g, '-')`. -/
def slug (title : String) : String :=
  replaceWhiteSpace (toLowerCase title) "-"

/-- The `to` attribute of the card: the template literal that puts the slug and
`listing.id` after `/listing/`, with a hyphen between the two. -/
def linkTo (title : String) (id : ListingId) : String :=
  "/listing/" ++ slug title ++ "-" ++ id.toTemplate

/-- The `alt` attribute of the image: make name, model name and year, space separated. -/
def altText (l : Listing) : String :=
  l.make.name ++ " " ++ l.model.name ++ " " ++ numberToString l.year

/-- The paragraph that shows the price: a dollar sign, then `price.toLocaleString()`. -/
def priceParagraph (loc : Locale) (price : NaturalNumber) : Node :=
  .element "p" [("className", "text-[20px] font-[800] tracking-wide")]
    [.text "$", .text (toLocaleString loc price)]

/-- The paragraph that shows the mileage: `mileage.toLocaleString()`, then ` miles`. -/
def mileageParagraph (loc : Locale) (mileage : NaturalNumber) : Node :=
  .element "p" [("className", "text-gray-400")]
    [.text (toLocaleString loc mileage), .text " miles"]

/-- The markup of the card once its first image is known. -/
def cardMarkup (loc : Locale) (l : Listing) (first : ListingImage) : Node :=
  .link (linkTo l.title l.id)
    "shadow-md rounded-md flex flex-col overflow-hidden  w-full group"
    [ .element "div" [("className", "bg-gray-200 min-h-[100px]")]
        [ .element "img"
            [ ("src", first.path),
              ("alt", altText l),
              ("className", "w-full group-hover:scale-[1.1] z-14 transition-all duration-[0.7s] ease-in-out cursor-pointer") ]
            [] ],
      .element "div"
        [("className", "bg-[#222732] px-[20px] py-[15px] flex flex-col gap-[10px] font-muli text-white z-[15]")]
        [ .element "p" [("className", "text-[17px] font-[700] tracking-wide truncate")]
            [.text l.title],
          priceParagraph loc l.price,
          .element "hr" [] [],
          .element "div"
            [("className", "flex flex-wrap items-center gap-[20px] text-[14px] font-[600] tracking-wide  h-[31px] mt-[5px]")]
            [ .element "p" [("className", "px-[12px] py-[5px] bg-[#d5ab63] rounded-md")]
                [.text (numberToString l.year)],
              mileageParagraph loc l.mileage,
              .element "p" [("className", "text-gray-400")] [.text l.transmission.type],
              .element "p" [("className", "text-gray-400")]
                [.text l.fuel_type.type, .text " "] ] ] ]

/-- The component `ListingCard`. `listing.listing_images[0]` is `undefined` on an empty
sequence, and reading `.path` of `undefined` throws a `TypeError`. -/
def ListingCard (loc : Locale) (l : Listing) : Except RenderError Node :=
  match l.listing_images[0]? with
  | none => .error (.typeError "Cannot read properties of undefined (reading path)")
  | some first => .ok (cardMarkup loc l first)

/-- A listing with two images, used to exercise the card. -/
def exampleListing : Listing :=
  { id := .num 42
    title := "Classic Mustang 1967"
    price := 125000
    year := 1967
    mileage := 54321
    make := ⟨"Ford"⟩
    model := ⟨"Mustang"⟩
    transmission := ⟨"Manual"⟩
    fuel_type := ⟨"Petrol"⟩
    listing_images := [⟨"/media/mustang-front.jpg"⟩, ⟨"/media/mustang-rear.jpg"⟩] }

/-! ## `Footer.jsx` -/

/-- One entry of the navigation list: a router link holding a bullet and a label. -/
def footerEntry (target label : String) : Node :=
  .element "li" []
    [ .link target "flex gap-[10px] items-center group"
        [ .element "span" [("className", "w-[8px] h-[8px] rounded-full bg-[#d5ab63]")] [],
          .element "p"
            [("className", "group-hover:text-[#d5ab63] group-hover:translate-x-[7%] transition-all duration-75 ease-in")]
            [.text label] ] ]

/-- The component `Footer`. It has no props; `logoNoBg` is the address the bundler gives
to the imported logo image. -/
def Footer (logoNoBg : String) : Node :=
  .element "footer" [("className", "bg-[#222732] font-muli")]
    [ .element "div"
        [("className", "sm:container sm:mx-auto px-[25px] pt-[100px] pb-[30px] flex flex-col gap-[30px]")]
        [ .element "div"
            [("className", "flex flex-col items-center sm:flex-row sm:flex-wrap sm:justify-between gap-[40px]")]
            [ .element "img"
                [("src", logoNoBg), ("alt", "Zoom Vintage Classics"), ("className", "w-[140px]")] [],
              .element "p" [("className", "text-white max-w-[265px] sm:text-start text-center")]
                [.text "At Zoom Vintage Classics, we don’t just offer classic cars – we offer experiences, nostalgia, and a connection to the past. Every vehicle in our collection is handpicked, thoroughly checked, and ready to hit the road or become a treasured part of your collection."],
              .element "ul"
                [("className", "flex flex-wrap gap-[35px] text-[17px] max-w-[265px] text-white")]
                [ footerEntry "/search" "Listings",
                  footerEntry "/return-policy" "Return Policy",
                  footerEntry "/privacy-policy" "Privacy Policy",
                  footerEntry "/shipping" "Shipping",
                  footerEntry "/contact-us" "Contact Us" ],
              .element "div" [("className", "flex flex-col gap-[30px] lg:ml-auto xl:ml-0")]
                [ .element "a"
                    [("href", "tel:"), ("className", "flex items-center gap-[10px] items-center text-white")]
                    [ .element "p" [("className", "text-[30px] font-[900] ")]
                        [ .text "+(333) ",
                          .element "span" [("className", "text-[#d5ab63]")] [.text "123 456 78"],
                          .text " " ] ],
                  .element "a"
                    [ ("href", "mailto:office@zoomvintageclassics.com"),
                      ("className", "flex justify-center sm:justify-end gap-[10px] items-center text-white") ]
                    [ .element "p" [("className", "text-[17px]")]
                        [.text "office@zoomvintageclassics.com"] ],
                  .element "a"
                    [("href", "#"), ("className", "flex flex-col items-center sm:items-end text-white")]
                    [ .element "p" [("className", "text-[17px]")] [.text "35th St Orlando"],
                      .element "p" [("className", "text-[17px]")] [.text "Florida"] ] ] ],
          .element "hr" [("className", "text-gray-600")] [],
          .element "p" [("className", "text-white sm:text-start text-center")]
            [.text "Copyright © 2025. All rights reserved."] ] ]

/-! ## Notions the statements use -/

/-- The maximal runs of a text: it is cut wherever a white-space character meets one
that is not. -/
def runs (s : List Char) : List (List Char) :=
  s.splitBy (fun a b => isWhiteSpace a == isWhiteSpace b)

/-- A run of white space becomes one hyphen; any other run is kept. -/
def hyphenate (run : List Char) : List Char :=
  if run.all isWhiteSpace then ['-'] else run

/-- The slug in the words of the specification: the title in lower case, each maximal
run of white space replaced by exactly one hyphen. -/
def slugSpec (title : String) : String :=
  ⟨((runs (toLowerCase title).data).map hyphenate).flatten⟩

/-- Characters that are safe inside one segment of a URL path: letters, digits and
`-`, `.`, `_`, `~`. -/
def urlSafe (c : Char) : Bool :=
  c.isAlphanum || c == '-' || c == '.' || c == '_' || c == '~'

/-- The part of a text after the last occurrence of `c` (the whole text when `c` does
not occur), as `s.slice(s.lastIndexOf(c) + 1)` gives it. -/
def afterLast (c : Char) (s : String) : String :=
  ⟨(s.data.reverse.takeWhile (fun x => x != c)).reverse⟩

/-- The number a text of decimal digits denotes. -/
def decimalValue (ds : List Char) : Nat :=
  ds.foldl (fun v d => 10 * v + (d.toNat - '0'.toNat)) 0

/-- Whether a text begins with a white-space character. -/
def startsWithWhiteSpace : List Char → Bool
  | [] => false
  | c :: _ => isWhiteSpace c

/-- Whether a text ends with a white-space character. -/
def endsWithWhiteSpace (s : List Char) : Bool :=
  startsWithWhiteSpace s.reverse

/-- Whether two ids are of the same kind: both integers, or both strings. -/
def sameKind : ListingId → ListingId → Bool
  | .num _, .num _ => true
  | .str _, .str _ => true
  | _, _ => false

/-- A digit text is grouped in threes from the right by `sep` when it is cut into
groups, the leftmost of one to three digits and every other of exactly three, and the
groups are written in order with `sep` between neighbours. -/
def GroupedInThrees (sep digits out : List Char) : Prop :=
  ∃ first : List Char, ∃ others : List (List Char),
    (first ++ others.flatten = digits) ∧
    (1 ≤ first.length ∧ first.length ≤ 3) ∧
    (∀ g ∈ others, g.length = 3) ∧
    out = List.intercalate sep (first :: others)

/-- The code points no lowercase image may be: white space, the hyphen, the capital
letters `A` to `Z`, U+0130, the capital sigma, and the surrogates. -/
def reservedRanges : List (Nat × Nat) :=
  [(9, 13), (32, 32), (45, 45), (65, 90), (160, 160), (304, 304), (931, 931), (5760, 5760),
    (8192, 8202), (8232, 8233), (8239, 8239), (8287, 8287), (12288, 12288), (55296, 57343),
    (65279, 65279)]

/-- Whether the images of a run are code points and avoid the reserved ones. -/
def runAvoids (e : Nat × Nat × Nat × Nat) : Bool :=
  e.2.2.2 + (e.2.1 - e.1) < 0x110000 &&
    reservedRanges.all (fun b => e.2.2.2 + (e.2.1 - e.1) < b.1 || b.2 < e.2.2.2)

/-- The white-space code points, one by one. -/
def whiteSpaceCodes : List Nat :=
  [9, 10, 11, 12, 13, 32, 160, 5760, 8192, 8193, 8194, 8195, 8196, 8197, 8198, 8199, 8200,
    8201, 8202, 8232, 8233, 8239, 8287, 12288, 65279]

/-- What `toLowerCase` writes for a character `c`: at least one character and no capital
letter `A` to `Z`; a white-space character is copied; for any other character none of
the characters written is white space, and the first, or the last, is a hyphen only
when `c` is. -/
def LowerOf (c : Char) (out : List Char) : Prop :=
  out ≠ [] ∧ (isWhiteSpace c = true → out = [c]) ∧
    (∀ d ∈ out, d.isUpper = false) ∧
    (isWhiteSpace c = false →
      (∀ d ∈ out, isWhiteSpace d = false) ∧
      (out.head? = some '-' ↔ c = '-') ∧ (out.getLast? = some '-' ↔ c = '-'))

/-- The non-negative integer a text of `Number::toString` denotes before conversion:
the digits before `e` (without the point) shifted by the exponent, or all the digits
when there is no `e`. -/
def readNumber (t : List Char) : Nat :=
  if 'e' ∈ t then
    decimalValue ((t.takeWhile (fun c => c != 'e')).filter (fun c => c != '.')) *
      10 ^ (decimalValue ((t.dropWhile (fun c => c != 'e')).drop 2) + 1 -
        ((t.takeWhile (fun c => c != 'e')).filter (fun c => c != '.')).length)
  else decimalValue t

/-! ## Decimal digits -/

theorem digitChar_lt_ten (k : Nat) (h : k < 10) :
    (Nat.digitChar k).toNat - '0'.toNat = k ∧ (Nat.digitChar k).isDigit = true := by
  interval_cases k <;> decide

theorem toDigitsCore_fuel (n : Nat) : ∀ (f1 f2 : Nat) (ds : List Char), n < f1 → n < f2 →
    Nat.toDigitsCore 10 f1 n ds = Nat.toDigitsCore 10 f2 n [] ++ ds := by
  induction n using Nat.strong_induction_on with
  | _ n ih =>
    intro f1 f2 ds h1 h2
    obtain ⟨g1, rfl⟩ : ∃ g, f1 = g + 1 := ⟨f1 - 1, by omega⟩
    obtain ⟨g2, rfl⟩ : ∃ g, f2 = g + 1 := ⟨f2 - 1, by omega⟩
    simp only [Nat.toDigitsCore]
    by_cases hq : n / 10 = 0
    · simp [hq]
    · simp only [hq, if_false]
      have hlt : n / 10 < n := by omega
      rw [ih (n / 10) hlt g1 g2 _ (by omega) (by omega),
        ih (n / 10) hlt g2 g2 [Nat.digitChar (n % 10)] (by omega) (by omega)]
      simp

theorem toDigits_step (n : Nat) :
    Nat.toDigits 10 n =
      if n / 10 = 0 then [Nat.digitChar (n % 10)]
      else Nat.toDigits 10 (n / 10) ++ [Nat.digitChar (n % 10)] := by
  by_cases hq : n / 10 = 0
  · simp [Nat.toDigits, Nat.toDigitsCore, hq]
  · have hlt : n / 10 < n := by omega
    simp only [Nat.toDigits, Nat.toDigitsCore, hq, if_false]
    exact toDigitsCore_fuel (n / 10) n (n / 10 + 1) _ hlt (by omega)

theorem decimalValue_snoc (ds : List Char) (d : Char) :
    decimalValue (ds ++ [d]) = 10 * decimalValue ds + (d.toNat - '0'.toNat) := by
  simp [decimalValue, List.foldl_append]

theorem decimalValue_toDigits (n : Nat) : decimalValue (Nat.toDigits 10 n) = n := by
  induction n using Nat.strong_induction_on with
  | _ n ih =>
    rw [toDigits_step]
    have hd := (digitChar_lt_ten (n % 10) (Nat.mod_lt _ (by decide))).1
    by_cases hq : n / 10 = 0
    · simp only [hq, if_true]
      have := decimalValue_snoc [] (Nat.digitChar (n % 10))
      simp only [List.nil_append] at this
      rw [this, hd]
      simp [decimalValue]
      omega
    · simp only [hq, if_false]
      rw [decimalValue_snoc, hd, ih (n / 10) (by omega)]
      omega

theorem toDigits_injective (n m : Nat) (h : Nat.toDigits 10 n = Nat.toDigits 10 m) : n = m := by
  have := congrArg decimalValue h
  rwa [decimalValue_toDigits, decimalValue_toDigits] at this

theorem isDigit_of_mem_toDigits (n : Nat) :
    ∀ c ∈ Nat.toDigits 10 n, c.isDigit = true := by
  induction n using Nat.strong_induction_on with
  | _ n ih =>
    rw [toDigits_step]
    have hd := (digitChar_lt_ten (n % 10) (Nat.mod_lt _ (by decide))).2
    by_cases hq : n / 10 = 0
    · simp [hq, hd]
    · simp only [hq, if_false]
      intro c hc
      rcases List.mem_append.1 hc with h | h
      · exact ih (n / 10) (by omega) c h
      · simp at h
        rw [h]; exact hd

theorem toDigits_ne_nil (n : Nat) : Nat.toDigits 10 n ≠ [] := by
  rw [toDigits_step]
  by_cases hq : n / 10 = 0 <;> simp [hq]


/-! ## The white-space scan -/

theorem splitBy_loop_acc {r : Char → Char → Bool} (l : List Char) :
    ∀ (a : Char) (g : List Char) (gs : List (List Char)),
      List.splitBy.loop r l a g gs = gs.reverse ++ List.splitBy.loop r l a g [] := by
  induction l with
  | nil => intro a g gs; simp [List.splitBy.loop]
  | cons b l ih =>
    intro a g gs
    simp only [List.splitBy.loop]
    cases r a b with
    | true => exact ih b (a :: g) gs
    | false =>
      simp only
      rw [ih b [] ((a :: g).reverse :: gs), ih b [] [(a :: g).reverse]]
      simp

theorem hyphenate_whiteSpace (run : List Char) (h : ∀ c ∈ run, isWhiteSpace c = true) :
    hyphenate run = ['-'] := by
  have : run.all isWhiteSpace = true := List.all_eq_true.2 h
  simp [hyphenate, this]

theorem hyphenate_other (run : List Char) (a : Char) (ha : a ∈ run)
    (h : isWhiteSpace a = false) : hyphenate run = run := by
  have : run.all isWhiteSpace = false := by
    cases hall : run.all isWhiteSpace with
    | false => rfl
    | true => rw [List.all_eq_true.1 hall a ha] at h; cases h
  simp [hyphenate, this]

theorem hyphenate_loop (l : List Char) : ∀ (a : Char) (g : List Char),
    (isWhiteSpace a = true → (∀ c ∈ g, isWhiteSpace c = true) →
      ((List.splitBy.loop (fun x y => isWhiteSpace x == isWhiteSpace y) l a g []).map
        hyphenate).flatten = '-' :: replaceWhiteSpaceFrom ['-'] true l) ∧
    (isWhiteSpace a = false →
      ((List.splitBy.loop (fun x y => isWhiteSpace x == isWhiteSpace y) l a g []).map
        hyphenate).flatten = g.reverse ++ a :: replaceWhiteSpaceFrom ['-'] false l) := by
  induction l with
  | nil =>
    intro a g
    constructor
    · intro ha hg
      have : hyphenate (g.reverse ++ [a]) = ['-'] :=
        hyphenate_whiteSpace _ (by
          intro c hc
          rcases List.mem_append.1 hc with h | h
          · exact hg c (List.mem_reverse.1 h)
          · simp at h; rw [h]; exact ha)
      simp [List.splitBy.loop, replaceWhiteSpaceFrom, this]
    · intro ha
      have : hyphenate (g.reverse ++ [a]) = g.reverse ++ [a] :=
        hyphenate_other _ a (by simp) ha
      simp [List.splitBy.loop, replaceWhiteSpaceFrom, this]
  | cons b l ih =>
    intro a g
    constructor
    · intro ha hg
      simp only [List.splitBy.loop, ha]
      cases hb : isWhiteSpace b with
      | true =>
        have hg2 : ∀ c ∈ a :: g, isWhiteSpace c = true := by
          intro c hc
          rcases List.mem_cons.1 hc with h | h
          · rw [h]; exact ha
          · exact hg c h
        simpa [replaceWhiteSpaceFrom, hb] using (ih b (a :: g)).1 hb hg2
      | false =>
        have hrun : hyphenate (g.reverse ++ [a]) = ['-'] :=
          hyphenate_whiteSpace _ (by
            intro c hc
            rcases List.mem_append.1 hc with h | h
            · exact hg c (List.mem_reverse.1 h)
            · simp at h; rw [h]; exact ha)
        have hrest := (ih b []).2 hb
        simp only [show (true == false) = false from rfl]
        rw [splitBy_loop_acc]
        simp [replaceWhiteSpaceFrom, hb, hrun, hrest]
    · intro ha
      simp only [List.splitBy.loop, ha]
      cases hb : isWhiteSpace b with
      | true =>
        have hrun : hyphenate (g.reverse ++ [a]) = g.reverse ++ [a] :=
          hyphenate_other _ a (by simp) ha
        have hrest := (ih b []).1 hb (by simp)
        simp only [show (false == true) = false from rfl]
        rw [splitBy_loop_acc]
        simp [replaceWhiteSpaceFrom, hb, hrun, hrest]
      | false =>
        simpa [replaceWhiteSpaceFrom, hb] using (ih b (a :: g)).2 hb

theorem replaceWhiteSpaceFrom_eq_runs (s : List Char) :
    replaceWhiteSpaceFrom ['-'] false s = ((runs s).map hyphenate).flatten := by
  cases s with
  | nil => simp [runs, replaceWhiteSpaceFrom, List.splitBy]
  | cons a l =>
    simp only [runs, List.splitBy]
    cases ha : isWhiteSpace a with
    | true =>
      rw [(hyphenate_loop l a []).1 ha (by simp)]
      simp [replaceWhiteSpaceFrom, ha]
    | false =>
      rw [(hyphenate_loop l a []).2 ha]
      simp [replaceWhiteSpaceFrom, ha]

theorem slug_eq_slugSpec (title : String) : slug title = slugSpec title := by
  simp only [slug, slugSpec, replaceWhiteSpace]
  exact congrArg String.mk (replaceWhiteSpaceFrom_eq_runs _)

theorem replaceWhiteSpaceFrom_of_not_starts (rep : List Char) (b : Bool) (s : List Char)
    (h : startsWithWhiteSpace s = false) :
    replaceWhiteSpaceFrom rep b s = replaceWhiteSpaceFrom rep false s := by
  cases s with
  | nil => simp [replaceWhiteSpaceFrom]
  | cons c cs =>
    simp only [startsWithWhiteSpace] at h
    simp [replaceWhiteSpaceFrom, h]

theorem replaceWhiteSpaceFrom_true_run (rep : List Char) (ws : List Char)
    (hws : ∀ c ∈ ws, isWhiteSpace c = true) (rest : List Char) :
    replaceWhiteSpaceFrom rep true (ws ++ rest) = replaceWhiteSpaceFrom rep true rest := by
  induction ws with
  | nil => rfl
  | cons c cs ih =>
    have hc : isWhiteSpace c = true := hws c (List.mem_cons_self _ _)
    have hcs : ∀ x ∈ cs, isWhiteSpace x = true := fun x hx => hws x (List.mem_cons_of_mem _ hx)
    simp [replaceWhiteSpaceFrom, hc, ih hcs]

theorem replaceWhiteSpaceFrom_leading (rep : List Char) (ws rest : List Char) (hne : ws ≠ [])
    (hws : ∀ c ∈ ws, isWhiteSpace c = true) (hrest : startsWithWhiteSpace rest = false) :
    replaceWhiteSpaceFrom rep false (ws ++ rest) = rep ++ replaceWhiteSpaceFrom rep false rest := by
  cases ws with
  | nil => exact absurd rfl hne
  | cons c cs =>
    have hc : isWhiteSpace c = true := hws c (List.mem_cons_self _ _)
    have hcs : ∀ x ∈ cs, isWhiteSpace x = true := fun x hx => hws x (List.mem_cons_of_mem _ hx)
    rw [List.cons_append, replaceWhiteSpaceFrom]
    rw [replaceWhiteSpaceFrom_true_run rep cs hcs rest,
      replaceWhiteSpaceFrom_of_not_starts rep true rest hrest]
    simp [hc]

theorem replaceWhiteSpaceFrom_trailing_aux (rep : List Char) (ws : List Char) (hne : ws ≠ [])
    (hws : ∀ c ∈ ws, isWhiteSpace c = true) (rest : List Char) :
    ∀ b : Bool, rest ≠ [] → endsWithWhiteSpace rest = false →
      replaceWhiteSpaceFrom rep b (rest ++ ws) = replaceWhiteSpaceFrom rep b rest ++ rep := by
  induction rest with
  | nil => intro b h; exact absurd rfl h
  | cons c cs ih =>
    intro b _ hend
    cases cs with
    | nil =>
      have hc : isWhiteSpace c = false := by
        simpa [endsWithWhiteSpace, startsWithWhiteSpace] using hend
      have hlead := replaceWhiteSpaceFrom_leading rep ws [] hne hws rfl
      simp only [List.append_nil] at hlead
      simp [replaceWhiteSpaceFrom, hc, hlead]
    | cons d ds =>
      have hend2 : endsWithWhiteSpace (d :: ds) = false := by
        have hrev : (c :: d :: ds).reverse = (d :: ds).reverse ++ [c] := by simp
        simp only [endsWithWhiteSpace, hrev] at hend
        simp only [endsWithWhiteSpace]
        cases hr : (d :: ds).reverse with
        | nil => simp at hr
        | cons x xs => rw [hr] at hend; simpa [startsWithWhiteSpace] using hend
      have ih2 := fun b => ih b (by simp) hend2
      simp only [List.cons_append, replaceWhiteSpaceFrom] at ih2 ⊢
      cases hc : isWhiteSpace c with
      | true =>
        cases b with
        | true => simpa [hc] using ih2 true
        | false => simpa [hc] using ih2 true
      | false => simpa [hc] using ih2 false

theorem replaceWhiteSpaceFrom_trailing (rep : List Char) (ws rest : List Char) (hne : ws ≠ [])
    (hws : ∀ c ∈ ws, isWhiteSpace c = true) (hrest : endsWithWhiteSpace rest = false) :
    replaceWhiteSpaceFrom rep false (rest ++ ws) = replaceWhiteSpaceFrom rep false rest ++ rep := by
  cases rest with
  | nil =>
    have hlead := replaceWhiteSpaceFrom_leading rep ws [] hne hws rfl
    simpa [replaceWhiteSpaceFrom] using hlead
  | cons c cs =>
    exact replaceWhiteSpaceFrom_trailing_aux rep ws hne hws (c :: cs) false (by simp) hrest

theorem replaceWhiteSpaceFrom_snoc (rep : List Char) (x : Char) (hx : isWhiteSpace x = false)
    (s : List Char) : ∀ b : Bool,
      replaceWhiteSpaceFrom rep b (s ++ [x]) = replaceWhiteSpaceFrom rep b s ++ [x] := by
  induction s with
  | nil => intro b; simp [replaceWhiteSpaceFrom, hx]
  | cons c cs ih =>
    intro b
    rw [List.cons_append, replaceWhiteSpaceFrom, replaceWhiteSpaceFrom]
    cases hc : isWhiteSpace c <;> cases b <;> simp [ih]

theorem mem_replaceWhiteSpaceFrom (rep : List Char) (s : List Char) : ∀ (b : Bool) (c : Char),
    c ∈ replaceWhiteSpaceFrom rep b s → c ∈ rep ∨ (isWhiteSpace c = false ∧ c ∈ s) := by
  induction s with
  | nil => intro b c h; simp [replaceWhiteSpaceFrom] at h
  | cons d ds ih =>
    intro b c h
    rw [replaceWhiteSpaceFrom] at h
    cases hd : isWhiteSpace d with
    | true =>
      cases b with
      | true =>
        simp only [hd, if_true] at h
        rcases ih true c h with h1 | ⟨h1, h2⟩
        · exact Or.inl h1
        · exact Or.inr ⟨h1, List.mem_cons_of_mem _ h2⟩
      | false =>
        simp only [hd, if_true, Bool.false_eq_true, if_false] at h
        rcases List.mem_append.1 h with h0 | h0
        · exact Or.inl h0
        · rcases ih true c h0 with h1 | ⟨h1, h2⟩
          · exact Or.inl h1
          · exact Or.inr ⟨h1, List.mem_cons_of_mem _ h2⟩
    | false =>
      simp only [hd, Bool.false_eq_true, if_false] at h
      rcases List.mem_cons.1 h with h0 | h0
      · exact Or.inr ⟨by rw [h0]; exact hd, by rw [h0]; exact List.mem_cons_self _ _⟩
      · rcases ih false c h0 with h1 | ⟨h1, h2⟩
        · exact Or.inl h1
        · exact Or.inr ⟨h1, List.mem_cons_of_mem _ h2⟩

/-! ## Case conversion -/

theorem isUpper_iff (c : Char) : c.isUpper = true ↔ 65 ≤ c.toNat ∧ c.toNat ≤ 90 := by
  simp only [Char.isUpper, Bool.and_eq_true, decide_eq_true_eq, Char.toNat]
  rfl

theorem toNat_ofNat_valid (n : Nat) (h : n.isValidChar) : (Char.ofNat n).toNat = n := by
  unfold Char.ofNat
  rw [dif_pos h]
  rfl

theorem lowerCodeIn_cases (table : List (Nat × Nat × Nat × Nat)) (n : Nat) :
    lowerCodeIn table n = n ∨
      ∃ e ∈ table, e.1 ≤ n ∧ n ≤ e.2.1 ∧ lowerCodeIn table n = e.2.2.2 + (n - e.1) := by
  induction table with
  | nil => exact Or.inl rfl
  | cons e rest ih =>
    obtain ⟨first, last, step, image⟩ := e
    unfold lowerCodeIn
    by_cases h1 : n < first
    · simp [h1]
    · by_cases h2 : n ≤ last ∧ (n - first) % step = 0
      · refine Or.inr ⟨(first, last, step, image), List.mem_cons_self _ _, by omega, h2.1, ?_⟩
        simp [h1, h2]
      · rw [if_neg h1, if_neg h2]
        rcases ih with h | ⟨e, he, h⟩
        · exact Or.inl h
        · exact Or.inr ⟨e, List.mem_cons_of_mem _ he, h⟩


theorem lowerCaseRuns_avoid : lowerCaseRuns.all runAvoids = true := by
  decide

theorem lowerCode_cases (n : Nat) :
    lowerCodeIn lowerCaseRuns n = n ∨
      (lowerCodeIn lowerCaseRuns n < 0x110000 ∧
        ∀ b ∈ reservedRanges,
          lowerCodeIn lowerCaseRuns n < b.1 ∨ b.2 < lowerCodeIn lowerCaseRuns n) := by
  rcases lowerCodeIn_cases lowerCaseRuns n with h | ⟨e, he, h1, h2, h3⟩
  · exact Or.inl h
  · right
    have hav := List.all_eq_true.1 lowerCaseRuns_avoid e he
    simp only [runAvoids, Bool.and_eq_true, decide_eq_true_eq, List.all_eq_true,
      Bool.or_eq_true] at hav
    rw [h3]
    refine ⟨by omega, fun b hb => ?_⟩
    rcases hav.2 b hb with h | h
    · left; omega
    · right; omega

theorem isWhiteSpace_iff (c : Char) : isWhiteSpace c = true ↔ c.toNat ∈ whiteSpaceCodes := by
  simp only [isWhiteSpace, whiteSpaceCodes, Bool.or_eq_true, beq_iff_eq, Bool.and_eq_true,
    decide_eq_true_eq, List.mem_cons, List.mem_singleton, List.not_mem_nil, or_false]
  omega

theorem whiteSpaceCodes_plain : whiteSpaceCodes.all (fun k =>
    lowerCodeIn lowerCaseRuns k == k && !inRanges casedRanges k && k != 0x3A3 && k != 0x130
      && !(decide (65 ≤ k) && decide (k ≤ 90))) = true := by
  decide

theorem reserved_facts (m : Nat) (hlt : m < 0x110000)
    (h : ∀ b ∈ reservedRanges, m < b.1 ∨ b.2 < m) :
    (Char.ofNat m).toNat = m ∧ m ∉ whiteSpaceCodes ∧ m ≠ 45 ∧ ¬ (65 ≤ m ∧ m ≤ 90) := by
  simp only [reservedRanges, List.mem_cons, List.mem_singleton, List.not_mem_nil, or_false,
    forall_eq_or_imp, forall_eq] at h
  have hv : m.isValidChar := by
    unfold Nat.isValidChar
    omega
  refine ⟨toNat_ofNat_valid m hv, ?_, by omega, by omega⟩
  simp only [whiteSpaceCodes, List.mem_cons, List.mem_singleton, List.not_mem_nil, or_false]
  omega

theorem eq_hyphen_iff (c : Char) : c = '-' ↔ c.toNat = 45 := by
  constructor
  · intro h; rw [h]; rfl
  · intro h
    have := Char.ofNat_toNat c
    rw [h] at this
    rw [← this]

theorem lowerOf_single (c d : Char) (hws : isWhiteSpace c = true → d = c)
    (hup : d.isUpper = false)
    (h : isWhiteSpace c = false → isWhiteSpace d = false ∧ (d = '-' ↔ c = '-')) :
    LowerOf c [d] := by
  unfold LowerOf
  refine ⟨by simp, fun hc => by rw [hws hc], by simpa using hup, fun hc => ?_⟩
  obtain ⟨h1, h2⟩ := h hc
  exact ⟨by simpa using h1, by simpa using h2, by simpa using h2⟩

theorem lowerOf_lowerCodePoint (c : Char) :
    LowerOf c (lowerCodePoint c) := by
  unfold lowerCodePoint LowerOf
  by_cases hi : c.toNat = 0x130
  · rw [if_pos hi]
    have hc : isWhiteSpace c = false := by
      cases h : isWhiteSpace c with
      | false => rfl
      | true =>
        have := (isWhiteSpace_iff c).1 h
        rw [hi] at this
        exact absurd this (by decide)
    have hne : c ≠ '-' := fun e => by rw [e] at hi; exact absurd hi (by decide)
    refine ⟨by simp, fun h => (by rw [hc] at h; cases h), ?_, fun _ => ⟨?_, ?_, ?_⟩⟩
    · intro d hd
      simp only [List.mem_cons, List.mem_singleton, List.not_mem_nil, or_false] at hd
      rcases hd with h | h <;> rw [h] <;> decide
    · intro d hd
      simp only [List.mem_cons, List.mem_singleton, List.not_mem_nil, or_false] at hd
      rcases hd with h | h <;> rw [h] <;> decide
    · exact ⟨fun h => absurd h (by decide), fun h => absurd h hne⟩
    · exact ⟨fun h => absurd h (by decide), fun h => absurd h hne⟩
  · rw [if_neg hi]
    rcases lowerCode_cases c.toNat with h | ⟨hlt, hav⟩
    · rw [h, Char.ofNat_toNat]
      refine lowerOf_single c c (fun _ => rfl) ?_ (fun hc => ⟨hc, Iff.rfl⟩)
      cases hu : c.isUpper with
      | false => rfl
      | true =>
        have hr := (isUpper_iff c).1 hu
        exfalso
        revert h
        generalize c.toNat = n at hr
        obtain ⟨h1, h2⟩ := hr
        interval_cases n <;> decide
    · obtain ⟨h1, h2, h3, h4⟩ := reserved_facts _ hlt hav
      have hd : isWhiteSpace (Char.ofNat (lowerCodeIn lowerCaseRuns c.toNat)) = false := by
        cases h : isWhiteSpace (Char.ofNat (lowerCodeIn lowerCaseRuns c.toNat)) with
        | false => rfl
        | true =>
          have := (isWhiteSpace_iff _).1 h
          rw [h1] at this
          exact absurd this h2
      have hup : (Char.ofNat (lowerCodeIn lowerCaseRuns c.toNat)).isUpper = false := by
        cases h : (Char.ofNat (lowerCodeIn lowerCaseRuns c.toNat)).isUpper with
        | false => rfl
        | true =>
          have := (isUpper_iff _).1 h
          rw [h1] at this
          exact absurd this h4
      have hnh : Char.ofNat (lowerCodeIn lowerCaseRuns c.toNat) ≠ '-' := by
        intro e
        have := (eq_hyphen_iff _).1 e
        rw [h1] at this
        exact h3 this
      refine lowerOf_single c _ ?_ hup (fun hc => ⟨hd, ⟨fun e => absurd e hnh, ?_⟩⟩)
      · intro hc
        have hmem := (isWhiteSpace_iff c).1 hc
        have hall := List.all_eq_true.1 whiteSpaceCodes_plain _ hmem
        simp only [Bool.and_eq_true, beq_iff_eq] at hall
        rw [hall.1.1.1.1, Char.ofNat_toNat]
      · intro e
        exfalso
        have h45 := (eq_hyphen_iff c).1 e
        have : lowerCodeIn lowerCaseRuns c.toNat = 45 := by rw [h45]; decide
        exact h3 this

theorem whiteSpace_plain (w : Char) (h : isWhiteSpace w = true) :
    isCased w = false ∧ w.toNat ≠ 0x3A3 := by
  have hmem := (isWhiteSpace_iff w).1 h
  have hall := List.all_eq_true.1 whiteSpaceCodes_plain _ hmem
  simp only [Bool.and_eq_true, beq_iff_eq, Bool.not_eq_true', bne_iff_ne, ne_eq] at hall
  exact ⟨hall.1.1.1.2, hall.1.1.2⟩

theorem toLowerCaseFrom_cons (b : Bool) (c : Char) (cs : List Char) :
    ∃ out, LowerOf c out ∧
      toLowerCaseFrom b (c :: cs) =
        out ++ toLowerCaseFrom (if isCaseIgnorable c then b else isCased c) cs := by
  by_cases hs : c.toNat = 0x3A3
  · have hc : isWhiteSpace c = false := by
      cases h : isWhiteSpace c with
      | false => rfl
      | true => exact absurd hs (whiteSpace_plain c h).2
    have hne : c ≠ '-' := fun e => by rw [e] at hs; exact absurd hs (by decide)
    by_cases hf : (b && !followedByCased cs) = true
    · refine ⟨[Char.ofNat 0x3C2], lowerOf_single c _ (fun h => by rw [hc] at h; cases h)
        (by decide) (fun _ => ⟨by decide, fun e => absurd e (by decide), fun e => absurd e hne⟩),
        ?_⟩
      rw [toLowerCaseFrom, if_pos hs, if_pos hf]
    · refine ⟨[Char.ofNat 0x3C3], lowerOf_single c _ (fun h => by rw [hc] at h; cases h)
        (by decide) (fun _ => ⟨by decide, fun e => absurd e (by decide), fun e => absurd e hne⟩),
        ?_⟩
      rw [toLowerCaseFrom, if_pos hs, if_neg hf]
  · refine ⟨lowerCodePoint c, lowerOf_lowerCodePoint c, ?_⟩
    rw [toLowerCaseFrom, if_neg hs]

theorem toLowerCaseFrom_whiteSpace (ws : List Char) (hws : ∀ c ∈ ws, isWhiteSpace c = true) :
    ∀ b : Bool, toLowerCaseFrom b ws = ws := by
  induction ws with
  | nil => intro b; rfl
  | cons w ws ih =>
    intro b
    have hw := hws w (List.mem_cons_self _ _)
    obtain ⟨out, hout, heq⟩ := toLowerCaseFrom_cons b w ws
    rw [heq, hout.2.1 hw, ih (fun c hc => hws c (List.mem_cons_of_mem _ hc))]
    rfl

theorem toLowerCaseFrom_leading (ws rest : List Char)
    (hws : ∀ c ∈ ws, isWhiteSpace c = true) :
    toLowerCaseFrom false (ws ++ rest) = ws ++ toLowerCaseFrom false rest := by
  induction ws with
  | nil => rfl
  | cons w ws ih =>
    have hw := hws w (List.mem_cons_self _ _)
    obtain ⟨out, hout, heq⟩ := toLowerCaseFrom_cons false w (ws ++ rest)
    have hflag : (if isCaseIgnorable w then false else isCased w) = false := by
      rw [(whiteSpace_plain w hw).1]; simp
    rw [List.cons_append, heq, hout.2.1 hw, hflag,
      ih (fun c hc => hws c (List.mem_cons_of_mem _ hc))]
    rfl

theorem followedByCased_whiteSpace (ws : List Char) (hws : ∀ c ∈ ws, isWhiteSpace c = true) :
    followedByCased ws = false := by
  induction ws with
  | nil => rfl
  | cons w ws ih =>
    have hw := hws w (List.mem_cons_self _ _)
    rw [followedByCased, ih (fun c hc => hws c (List.mem_cons_of_mem _ hc)),
      (whiteSpace_plain w hw).1]
    simp

theorem followedByCased_append (ws : List Char) (hws : ∀ c ∈ ws, isWhiteSpace c = true)
    (cs : List Char) : followedByCased (cs ++ ws) = followedByCased cs := by
  induction cs with
  | nil => rw [List.nil_append, followedByCased_whiteSpace ws hws]; rfl
  | cons c cs ih => rw [List.cons_append, followedByCased, followedByCased, ih]

theorem toLowerCaseFrom_trailing (ws : List Char) (hws : ∀ c ∈ ws, isWhiteSpace c = true)
    (rest : List Char) :
    ∀ b : Bool, toLowerCaseFrom b (rest ++ ws) = toLowerCaseFrom b rest ++ ws := by
  induction rest with
  | nil => intro b; rw [List.nil_append, toLowerCaseFrom_whiteSpace ws hws b]; rfl
  | cons c cs ih =>
    intro b
    rw [List.cons_append, toLowerCaseFrom, toLowerCaseFrom, followedByCased_append ws hws, ih,
      List.append_assoc]

theorem toLowerCaseFrom_last (x : Char) (init : List Char) :
    ∀ b : Bool, ∃ pre out, LowerOf x out ∧ toLowerCaseFrom b (init ++ [x]) = pre ++ out := by
  induction init with
  | nil =>
    intro b
    obtain ⟨out, hout, heq⟩ := toLowerCaseFrom_cons b x []
    exact ⟨[], out, hout, by rw [List.nil_append, heq]; simp [toLowerCaseFrom]⟩
  | cons c cs ih =>
    intro b
    obtain ⟨outc, _, heq⟩ := toLowerCaseFrom_cons b c (cs ++ [x])
    obtain ⟨pre, out, hout, hrest⟩ := ih (if isCaseIgnorable c then b else isCased c)
    exact ⟨outc ++ pre, out, hout, by rw [List.cons_append, heq, hrest, List.append_assoc]⟩

theorem isUpper_of_mem_toLowerCaseFrom (s : List Char) :
    ∀ (b : Bool) (d : Char), d ∈ toLowerCaseFrom b s → d.isUpper = false := by
  induction s with
  | nil => intro b d h; simp [toLowerCaseFrom] at h
  | cons c cs ih =>
    intro b d h
    obtain ⟨out, hout, heq⟩ := toLowerCaseFrom_cons b c cs
    rw [heq] at h
    rcases List.mem_append.1 h with h1 | h1
    · exact hout.2.2.1 d h1
    · exact ih _ d h1

theorem replaceWhiteSpaceFrom_plain (rep : List Char) (out : List Char)
    (hout : ∀ d ∈ out, isWhiteSpace d = false) (tail : List Char) :
    replaceWhiteSpaceFrom rep false (out ++ tail) =
      out ++ replaceWhiteSpaceFrom rep false tail := by
  induction out with
  | nil => rfl
  | cons d ds ih =>
    have hd := hout d (List.mem_cons_self _ _)
    rw [List.cons_append, replaceWhiteSpaceFrom, ih (fun x hx => hout x (List.mem_cons_of_mem _ hx))]
    simp [hd]

theorem replaceWhiteSpaceFrom_append_plain (rep : List Char) (out : List Char)
    (hout : ∀ d ∈ out, isWhiteSpace d = false) :
    ∀ (s : List Char) (b : Bool),
      replaceWhiteSpaceFrom rep b (s ++ out) = replaceWhiteSpaceFrom rep b s ++ out := by
  induction out with
  | nil => intro s b; simp
  | cons d ds ih =>
    intro s b
    have hd := hout d (List.mem_cons_self _ _)
    have := ih (fun x hx => hout x (List.mem_cons_of_mem _ hx)) (s ++ [d]) b
    rw [List.append_assoc, List.singleton_append] at this
    rw [this, replaceWhiteSpaceFrom_snoc rep d hd s b, List.append_assoc, List.singleton_append]

theorem startsWithWhiteSpace_toLowerCaseFrom (rest : List Char)
    (h : startsWithWhiteSpace rest = false) :
    startsWithWhiteSpace (toLowerCaseFrom false rest) = false := by
  cases rest with
  | nil => rfl
  | cons c cs =>
    obtain ⟨out, hout, heq⟩ := toLowerCaseFrom_cons false c cs
    rw [heq]
    have hc : isWhiteSpace c = false := h
    obtain ⟨hne, _, _, hplain⟩ := hout
    cases out with
    | nil => exact absurd rfl hne
    | cons d ds => exact (hplain hc).1 d (List.mem_cons_self _ _)

theorem endsWithWhiteSpace_append_plain (pre out : List Char) (hne : out ≠ [])
    (hout : ∀ d ∈ out, isWhiteSpace d = false) : endsWithWhiteSpace (pre ++ out) = false := by
  rcases List.eq_nil_or_concat out with h | ⟨init, x, h⟩
  · exact absurd h hne
  · rw [List.concat_eq_append] at h
    subst h
    have hx : isWhiteSpace x = false := hout x (by simp)
    simp [endsWithWhiteSpace, startsWithWhiteSpace, hx]

theorem endsWithWhiteSpace_toLowerCaseFrom (rest : List Char)
    (h : endsWithWhiteSpace rest = false) :
    endsWithWhiteSpace (toLowerCaseFrom false rest) = false := by
  rcases List.eq_nil_or_concat rest with h0 | ⟨init, x, h0⟩
  · subst h0; rfl
  · rw [List.concat_eq_append] at h0
    subst h0
    have hx : isWhiteSpace x = false := by
      simpa [endsWithWhiteSpace, startsWithWhiteSpace] using h
    obtain ⟨pre, out, hout, heq⟩ := toLowerCaseFrom_last x init false
    rw [heq]
    exact endsWithWhiteSpace_append_plain pre out hout.1 (hout.2.2.2 hx).1

/-! ## Numbers as text -/

theorem floorLog2From_spec (fuel : Nat) : ∀ n : Nat, 1 ≤ n → n ≤ fuel →
    2 ^ floorLog2From fuel n ≤ n ∧ n < 2 ^ (floorLog2From fuel n + 1) := by
  induction fuel with
  | zero => intro n h1 h2; omega
  | succ fuel ih =>
    intro n h1 h2
    rw [floorLog2From]
    by_cases h : n < 2
    · rw [if_pos h]
      have : n = 1 := by omega
      subst this
      decide
    · rw [if_neg h]
      obtain ⟨ha, hb⟩ := ih (n / 2) (by omega) (by omega)
      rw [Nat.pow_succ, Nat.pow_succ]
      constructor <;> omega

theorem floorLog2_spec (n : Nat) (h : 1 ≤ n) :
    2 ^ floorLog2 n ≤ n ∧ n < 2 ^ (floorLog2 n + 1) :=
  floorLog2From_spec n n h (Nat.le_refl n)

theorem roundToDouble_small (n : Nat) (h : n < 2 ^ 53) : roundToDouble n = n := by
  rw [roundToDouble, if_pos h]

theorem roundToDouble_large (n : Nat) (h : 2 ^ 53 ≤ n) : 2 ^ 53 ≤ roundToDouble n := by
  have hn : ¬ n < 2 ^ 53 := by omega
  obtain ⟨ha, hb⟩ := floorLog2_spec n (by
    have : 0 < 2 ^ 53 := by decide
    omega)
  have hL : 53 ≤ floorLog2 n := by
    by_contra hc
    have : floorLog2 n + 1 ≤ 53 := by omega
    have := Nat.pow_le_pow_right (show 0 < 2 by decide) this
    omega
  obtain ⟨sh, hsh⟩ : ∃ sh, floorLog2 n = 52 + sh := ⟨floorLog2 n - 52, by omega⟩
  have hsh1 : 1 ≤ sh := by omega
  have hpos : 0 < 2 ^ sh := by positivity
  have hq : 2 ^ 52 ≤ n / 2 ^ sh := by
    rw [Nat.le_div_iff_mul_le hpos, ← Nat.pow_add]
    rw [hsh] at ha
    exact ha
  have h2 : 2 ≤ 2 ^ sh := by
    have := Nat.pow_le_pow_right (show 0 < 2 by decide) hsh1
    simpa using this
  have hbase : 2 ^ 53 ≤ n / 2 ^ sh * 2 ^ sh := by
    calc 2 ^ 53 = 2 ^ 52 * 2 := by decide
      _ ≤ n / 2 ^ sh * 2 ^ sh := Nat.mul_le_mul hq h2
  rw [roundToDouble, if_neg hn]
  have hshift : floorLog2 n - 52 = sh := by omega
  rw [hshift]
  split
  · calc 2 ^ 53 ≤ n / 2 ^ sh * 2 ^ sh := hbase
      _ ≤ (n / 2 ^ sh + 1) * 2 ^ sh := Nat.mul_le_mul_right _ (Nat.le_succ _)
  · exact hbase

theorem pickAt_spec (x z s : Nat) (h : pickAt x z = some s) :
    roundToDouble (s * 10 ^ z) = x ∧ 1 ≤ s := by
  unfold pickAt at h
  split at h
  · rename_i hboth
    split at h
    · cases h; exact ⟨hboth.1.2, hboth.1.1⟩
    · split at h
      · cases h; exact ⟨hboth.2, Nat.le_add_left 1 _⟩
      · split at h
        · cases h; exact ⟨hboth.1.2, hboth.1.1⟩
        · cases h; exact ⟨hboth.2, Nat.le_add_left 1 _⟩
  · split at h
    · rename_i hlo
      cases h; exact ⟨hlo.2, hlo.1⟩
    · split at h
      · rename_i hhi
        cases h; exact ⟨hhi, Nat.le_add_left 1 _⟩
      · cases h

theorem shortestFrom_spec (x : Nat) (hx : roundToDouble x = x) (h1 : 1 ≤ x) (z : Nat) :
    roundToDouble ((shortestFrom x z).1 * 10 ^ (shortestFrom x z).2) = x ∧
      1 ≤ (shortestFrom x z).1 := by
  induction z with
  | zero => simp [shortestFrom, hx, h1]
  | succ z ih =>
    rw [shortestFrom]
    cases hp : pickAt x (z + 1) with
    | none => simpa using ih
    | some s => simpa using pickAt_spec x (z + 1) s hp

theorem shortestDecimal_spec (x : Nat) (hx : roundToDouble x = x) (h1 : 1 ≤ x) :
    roundToDouble ((shortestDecimal x).1 * 10 ^ (shortestDecimal x).2) = x ∧
      1 ≤ (shortestDecimal x).1 :=
  shortestFrom_spec x hx h1 _

theorem shortestDecimal_exact (x : Nat) (h1 : 1 ≤ x) (hx : x < 2 ^ 53) :
    (shortestDecimal x).1 * 10 ^ (shortestDecimal x).2 = x := by
  obtain ⟨h, _⟩ := shortestDecimal_spec x (roundToDouble_small x hx) h1
  by_cases hy : (shortestDecimal x).1 * 10 ^ (shortestDecimal x).2 < 2 ^ 53
  · rw [roundToDouble_small _ hy] at h
    exact h
  · have hbig := roundToDouble_large ((shortestDecimal x).1 * 10 ^ (shortestDecimal x).2)
      (by omega)
    rw [h] at hbig
    omega

theorem toDigits_mul_ten (s : Nat) (h : 1 ≤ s) :
    Nat.toDigits 10 (s * 10) = Nat.toDigits 10 s ++ ['0'] := by
  rw [toDigits_step (s * 10)]
  have h1 : s * 10 / 10 = s := by omega
  have h2 : s * 10 % 10 = 0 := by omega
  have h3 : ¬ s = 0 := by omega
  rw [h1, h2, if_neg h3]
  rfl

theorem toDigits_mul_pow (s : Nat) (h : 1 ≤ s) (z : Nat) :
    Nat.toDigits 10 (s * 10 ^ z) = Nat.toDigits 10 s ++ List.replicate z '0' := by
  induction z with
  | zero => simp
  | succ z ih =>
    have hpos : 1 ≤ s * 10 ^ z := Nat.mul_pos h (by positivity)
    rw [Nat.pow_succ, ← Nat.mul_assoc, toDigits_mul_ten _ hpos, ih, List.append_assoc,
      List.replicate_succ']

theorem decimalDigits_eq (x : Nat) (hx : roundToDouble x = x) (h1 : 1 ≤ x) :
    decimalDigits x = Nat.toDigits 10 ((shortestDecimal x).1 * 10 ^ (shortestDecimal x).2) := by
  rw [toDigits_mul_pow _ (shortestDecimal_spec x hx h1).2]
  rfl

theorem decimalDigits_zero : decimalDigits 0 = ['0'] := by
  decide

theorem decimalDigits_exact (x : Nat) (hx : x < 2 ^ 53) :
    decimalDigits x = Nat.toDigits 10 x := by
  by_cases h0 : x = 0
  · subst h0; decide
  · rw [decimalDigits_eq x (roundToDouble_small x hx) (by omega),
      shortestDecimal_exact x (by omega) hx]

theorem decimalDigits_value (x : Nat) (hx : roundToDouble x = x) :
    roundToDouble (decimalValue (decimalDigits x)) = x := by
  by_cases h0 : x = 0
  · subst h0; decide
  · rw [decimalDigits_eq x hx (by omega), decimalValue_toDigits]
    exact (shortestDecimal_spec x hx (by omega)).1

theorem length_toDigits_le (e : Nat) : ∀ n : Nat, 1 ≤ e → n < 10 ^ e →
    (Nat.toDigits 10 n).length ≤ e := by
  induction e with
  | zero => intro n h; omega
  | succ e ih =>
    intro n _ hn
    rw [toDigits_step]
    by_cases hq : n / 10 = 0
    · simp [hq]
    · rw [if_neg hq]
      have he : 1 ≤ e := by
        by_contra hc
        have : e = 0 := by omega
        subst this
        simp at hn
        omega
      have : n / 10 < 10 ^ e := by
        rw [Nat.pow_succ] at hn
        omega
      have := ih (n / 10) he this
      simp
      omega

theorem naturalToString_exact (x : Nat) (hx : x < 2 ^ 53) :
    naturalToString x = Nat.toDigits 10 x := by
  by_cases h0 : x = 0
  · subst h0; decide
  · have hd := decimalDigits_exact x hx
    have hlen : (decimalDigits x).length ≤ 21 := by
      rw [hd]
      exact length_toDigits_le 21 x (by decide) (by
        have : (2 : Nat) ^ 53 < 10 ^ 21 := by decide
        omega)
    have hlen2 : (Nat.toDigits 10 (shortestDecimal x).1).length + (shortestDecimal x).2 ≤ 21 := by
      simpa [decimalDigits] using hlen
    rw [naturalToString, if_neg h0, if_pos hlen2, hd]

theorem isDigit_of_mem_decimalDigits (x : Nat) : ∀ c ∈ decimalDigits x, c.isDigit = true := by
  intro c hc
  rcases List.mem_append.1 hc with h | h
  · exact isDigit_of_mem_toDigits _ c h
  · rw [(List.mem_replicate.1 h).2]; rfl

theorem ne_of_isDigit (c k : Char) (hc : c.isDigit = true) (hk : k.isDigit = false) :
    c ≠ k := by
  intro e
  rw [e, hk] at hc
  cases hc

theorem naturalToString_cases (x : Nat) (h0 : x ≠ 0) :
    ((Nat.toDigits 10 (shortestDecimal x).1).length + (shortestDecimal x).2 ≤ 21 ∧
      naturalToString x = decimalDigits x) ∨
    (21 < (Nat.toDigits 10 (shortestDecimal x).1).length + (shortestDecimal x).2 ∧
      ∃ d rest, Nat.toDigits 10 (shortestDecimal x).1 = d :: rest ∧
        naturalToString x =
          (if rest = [] then [d] else d :: '.' :: rest) ++ 'e' :: '+' ::
            Nat.toDigits 10 ((Nat.toDigits 10 (shortestDecimal x).1).length
              + (shortestDecimal x).2 - 1)) := by
  by_cases hn : (Nat.toDigits 10 (shortestDecimal x).1).length + (shortestDecimal x).2 ≤ 21
  · left
    exact ⟨hn, by rw [naturalToString, if_neg h0, if_pos hn]⟩
  · right
    refine ⟨by omega, ?_⟩
    rw [naturalToString, if_neg h0, if_neg hn]
    cases hds : Nat.toDigits 10 (shortestDecimal x).1 with
    | nil => exact absurd hds (toDigits_ne_nil _)
    | cons d rest =>
      refine ⟨d, rest, rfl, ?_⟩
      cases rest with
      | nil => simp
      | cons d2 r => simp

theorem readNumber_plain (t : List Char) (h : ∀ c ∈ t, c.isDigit = true) :
    readNumber t = decimalValue t := by
  have : 'e' ∉ t := fun he => absurd (h 'e' he) (by decide)
  rw [readNumber, if_neg this]

theorem readNumber_exponent (d : Char) (rest E : List Char)
    (hd : ∀ c ∈ d :: rest, c.isDigit = true) :
    readNumber ((if rest = [] then [d] else d :: '.' :: rest) ++ 'e' :: '+' :: E) =
      decimalValue (d :: rest) * 10 ^ (decimalValue E + 1 - (d :: rest).length) := by
  have hne : ∀ c ∈ d :: rest, (c != 'e') = true ∧ (c != '.') = true := by
    intro c hc
    have h1 := ne_of_isDigit c 'e' (hd c hc) (by decide)
    have h2 := ne_of_isDigit c '.' (hd c hc) (by decide)
    simp [h1, h2]
  have hmant : ∀ c ∈ (if rest = [] then [d] else d :: '.' :: rest), (c != 'e') = true := by
    intro c hc
    by_cases hr : rest = []
    · rw [if_pos hr] at hc
      simp only [List.mem_singleton] at hc
      rw [hc]
      exact (hne d (List.mem_cons_self _ _)).1
    · rw [if_neg hr] at hc
      rcases List.mem_cons.1 hc with h | h
      · rw [h]; exact (hne d (List.mem_cons_self _ _)).1
      · rcases List.mem_cons.1 h with h | h
        · rw [h]; decide
        · exact (hne c (List.mem_cons_of_mem _ h)).1
  have hfilter : (if rest = [] then [d] else d :: '.' :: rest).filter (fun c => c != '.')
      = d :: rest := by
    have hd1 := (hne d (List.mem_cons_self _ _)).2
    have hrest : rest.filter (fun c => c != '.') = rest :=
      List.filter_eq_self.2 (fun c hc => (hne c (List.mem_cons_of_mem _ hc)).2)
    by_cases hr : rest = []
    · rw [if_pos hr, hr]
      simp [List.filter, hd1]
    · rw [if_neg hr]
      simp [List.filter, hd1, hrest]
  have hmem : 'e' ∈ (if rest = [] then [d] else d :: '.' :: rest) ++ 'e' :: '+' :: E := by
    simp
  rw [readNumber, if_pos hmem, List.takeWhile_append_of_pos hmant,
    List.dropWhile_append_of_pos hmant]
  simp [hfilter]

theorem readNumber_naturalToString (x : Nat) (hx : roundToDouble x = x) :
    roundToDouble (readNumber (naturalToString x)) = x := by
  by_cases h0 : x = 0
  · subst h0; decide
  · obtain ⟨hr, hs⟩ := shortestDecimal_spec x hx (by omega)
    rcases naturalToString_cases x h0 with ⟨_, h⟩ | ⟨hn, d, rest, hds, h⟩
    · rw [h, readNumber_plain _ (isDigit_of_mem_decimalDigits x)]
      exact decimalDigits_value x hx
    · rw [h, readNumber_exponent d rest _ (by
        rw [← hds]; exact isDigit_of_mem_toDigits _), ← hds, decimalValue_toDigits,
        decimalValue_toDigits]
      have : (Nat.toDigits 10 (shortestDecimal x).1).length + (shortestDecimal x).2 - 1 + 1
          - (Nat.toDigits 10 (shortestDecimal x).1).length = (shortestDecimal x).2 := by
        omega
      rw [this]
      exact hr

theorem naturalToString_injective (x y : Nat) (hx : roundToDouble x = x)
    (hy : roundToDouble y = y) (h : naturalToString x = naturalToString y) : x = y := by
  have h1 := readNumber_naturalToString x hx
  rw [h, readNumber_naturalToString y hy] at h1
  exact h1.symm

theorem hyphen_not_mem_naturalToString (x : Nat) : '-' ∉ naturalToString x := by
  by_cases h0 : x = 0
  · subst h0; decide
  · intro hmem
    rcases naturalToString_cases x h0 with ⟨_, h⟩ | ⟨_, d, rest, hds, h⟩
    · rw [h] at hmem
      exact absurd (isDigit_of_mem_decimalDigits x _ hmem) (by decide)
    · rw [h] at hmem
      have hdig : ∀ c ∈ d :: rest, c.isDigit = true := by
        rw [← hds]; exact isDigit_of_mem_toDigits _
      rcases List.mem_append.1 hmem with h1 | h1
      · by_cases hr : rest = []
        · rw [if_pos hr] at h1
          simp only [List.mem_singleton] at h1
          exact absurd (hdig d (List.mem_cons_self _ _)) (by rw [← h1]; decide)
        · rw [if_neg hr] at h1
          rcases List.mem_cons.1 h1 with h2 | h2
          · exact absurd (hdig d (List.mem_cons_self _ _)) (by rw [← h2]; decide)
          · rcases List.mem_cons.1 h2 with h3 | h3
            · exact absurd h3 (by decide)
            · exact absurd (hdig _ (List.mem_cons_of_mem _ h3)) (by decide)
      · rcases List.mem_cons.1 h1 with h2 | h2
        · exact absurd h2 (by decide)
        · rcases List.mem_cons.1 h2 with h3 | h3
          · exact absurd h3 (by decide)
          · exact absurd (isDigit_of_mem_toDigits _ _ h3) (by decide)

theorem isDouble_round (n : Nat) (h : isDouble n = true) : roundToDouble n = n := by
  simp only [isDouble, Bool.and_eq_true, beq_iff_eq] at h
  exact h.2

theorem integerNumber_eq_of_val (a b : IntegerNumber) (h : a.val = b.val) : a = b := by
  cases a; cases b
  simp only at h
  subst h
  rfl

theorem numberToString_injective (a b : IntegerNumber)
    (h : numberToString a = numberToString b) : a = b := by
  have hd : (numberToString a).data = (numberToString b).data := congrArg String.data h
  obtain ⟨av, ha⟩ := a
  obtain ⟨bv, hb⟩ := b
  apply integerNumber_eq_of_val
  simp only [numberToString] at hd ⊢
  cases av with
  | ofNat n =>
    cases bv with
    | ofNat m =>
      simp only at hd
      rw [naturalToString_injective n m (isDouble_round n ha) (isDouble_round m hb) hd]
    | negSucc m =>
      simp only at hd
      have : '-' ∈ naturalToString n := by rw [hd]; exact List.mem_cons_self _ _
      exact absurd this (hyphen_not_mem_naturalToString n)
  | negSucc n =>
    cases bv with
    | ofNat m =>
      simp only at hd
      have : '-' ∈ naturalToString m := by rw [← hd]; exact List.mem_cons_self _ _
      exact absurd this (hyphen_not_mem_naturalToString m)
    | negSucc m =>
      simp only [List.cons.injEq, true_and] at hd
      have := naturalToString_injective (n + 1) (m + 1) (isDouble_round _ ha)
        (isDouble_round _ hb) hd
      have : n = m := by omega
      rw [this]

/-! ## Ids as text -/

theorem toTemplate_injective_sameKind (id1 id2 : ListingId) (hk : sameKind id1 id2 = true)
    (h : id1.toTemplate = id2.toTemplate) : id1 = id2 := by
  cases id1 with
  | num a =>
    cases id2 with
    | num b => rw [numberToString_injective a b h]
    | str t => simp [sameKind] at hk
  | str s =>
    cases id2 with
    | num b => simp [sameKind] at hk
    | str t => simp only [ListingId.toTemplate] at h; rw [h]

theorem linkTo_data (title : String) (id : ListingId) :
    (linkTo title id).data =
      ("/listing/" ++ slug title).data ++ '-' :: id.toTemplate.data := by
  simp [linkTo, String.data_append]

theorem toTemplate_natural (n : NaturalNumber) :
    (ListingId.num n.toInteger).toTemplate = ⟨naturalToString n.val⟩ := by
  rfl

theorem afterLast_linkTo_natural (t : String) (n : NaturalNumber) :
    afterLast '-' (linkTo t (.num n.toInteger)) = ⟨naturalToString n.val⟩ := by
  apply String.ext
  simp only [afterLast, linkTo_data, toTemplate_natural, List.reverse_append,
    List.reverse_cons, List.append_assoc, List.singleton_append]
  rw [List.takeWhile_append_of_pos, List.takeWhile_cons_of_neg (by simp)]
  · simp
  · intro c hc
    have hc2 := List.mem_reverse.1 hc
    have : c ≠ '-' := fun e => hyphen_not_mem_naturalToString n.val (e ▸ hc2)
    simpa using this

theorem naturalNumber_eq_of_val (a b : NaturalNumber) (h : a.val = b.val) : a = b := by
  cases a; cases b
  simp only at h
  subst h
  rfl

/-! ## Grouping of digits -/

theorem insertSeparators_short (sep : List Char) (ds : List Char) (h : ds.length ≤ 3) :
    insertSeparators 3 3 sep ds = ds := by
  match ds, h with
  | [], _ => rfl
  | [_], _ => simp [insertSeparators]
  | [_, _], _ => simp [insertSeparators]
  | [_, _, _], _ => simp [insertSeparators]
  | _ :: _ :: _ :: _ :: _, h => simp at h

theorem length_flatten_threes (gs : List (List Char)) (h : ∀ g ∈ gs, g.length = 3) :
    gs.flatten.length = 3 * gs.length := by
  induction gs with
  | nil => rfl
  | cons g gs ih =>
    have h1 := h g (List.mem_cons_self _ _)
    have h2 := ih (fun x hx => h x (List.mem_cons_of_mem _ hx))
    simp only [List.flatten_cons, List.length_append, List.length_cons, h1, h2]
    omega

theorem intercalate_cons_cons (sep a b : List Char) (rest : List (List Char)) :
    List.intercalate sep (a :: b :: rest) = a ++ sep ++ List.intercalate sep (b :: rest) := by
  simp [List.intercalate, List.intersperse]

theorem intercalate_push (sep : List Char) (d : Char) (a : List Char)
    (rest : List (List Char)) :
    List.intercalate sep ((d :: a) :: rest) = d :: List.intercalate sep (a :: rest) := by
  cases rest with
  | nil => simp [List.intercalate, List.intersperse]
  | cons b r => simp [intercalate_cons_cons]

theorem insertSeparators_grouped (sep : List Char) (ds : List Char) (hne : ds ≠ []) :
    GroupedInThrees sep ds (insertSeparators 3 3 sep ds) := by
  induction ds with
  | nil => exact absurd rfl hne
  | cons d ds ih =>
    by_cases hds : ds = []
    · subst hds
      exact ⟨[d], [], by simp, by simp, by simp, by simp [insertSeparators, List.intercalate]⟩
    · obtain ⟨first, others, hcat, hfirst, hothers, hout⟩ := ih hds
      have hlen : ds.length = first.length + 3 * others.length := by
        rw [← hcat, List.length_append, length_flatten_threes others hothers]
      by_cases hmod : 3 ≤ ds.length ∧ (ds.length - 3) % 3 = 0
      · have h3 : first.length = 3 := by omega
        refine ⟨[d], first :: others, by simp [hcat], by simp, ?_, ?_⟩
        · intro g hg
          rcases List.mem_cons.1 hg with h | h
          · rw [h]; exact h3
          · exact hothers g h
        · rw [insertSeparators, if_pos hmod, hout, intercalate_cons_cons]
          simp
      · refine ⟨d :: first, others, by simp [hcat], ?_, hothers, ?_⟩
        · simp only [List.length_cons]
          have : 0 < ds.length := List.length_pos.2 hds
          omega
        · rw [insertSeparators, if_neg hmod, hout, intercalate_push]

theorem localDigit_enUS (d : Char) (h : d.isDigit = true) : localDigit enUS d = d := by
  have h1 : 48 ≤ d.toNat ∧ d.toNat ≤ 57 := by
    simp only [Char.isDigit, Bool.and_eq_true, decide_eq_true_eq] at h
    exact h
  have : enUS.zeroDigit.toNat + (d.toNat - '0'.toNat) = d.toNat := by
    have e1 : enUS.zeroDigit.toNat = 48 := rfl
    have e2 : '0'.toNat = 48 := rfl
    rw [e1, e2]
    omega
  rw [localDigit, this, Char.ofNat_toNat]

theorem map_localDigit_enUS (x : Nat) :
    (decimalDigits x).map (localDigit enUS) = decimalDigits x := by
  have : ∀ ds : List Char, (∀ c ∈ ds, c.isDigit = true) → ds.map (localDigit enUS) = ds := by
    intro ds
    induction ds with
    | nil => intro _; rfl
    | cons d ds ih =>
      intro h
      rw [List.map_cons, localDigit_enUS d (h d (List.mem_cons_self _ _)),
        ih (fun c hc => h c (List.mem_cons_of_mem _ hc))]
  exact this _ (isDigit_of_mem_decimalDigits x)

theorem decimalDigits_ne_nil (x : Nat) : decimalDigits x ≠ [] := by
  intro h
  have := congrArg List.length h
  simp only [decimalDigits, List.length_append, List.length_nil] at this
  have hpos : 0 < (Nat.toDigits 10 (shortestDecimal x).1).length :=
    List.length_pos.2 (toDigits_ne_nil _)
  omega

theorem toLocaleString_enUS (x : NaturalNumber) :
    toLocaleString enUS x = ⟨insertSeparators 3 3 [','] (decimalDigits x.val)⟩ := by
  unfold toLocaleString
  rw [map_localDigit_enUS]
  by_cases h : 0 < enUS.primaryGroupingSize ∧
      enUS.primaryGroupingSize + enUS.minimumGroupingDigits ≤ (decimalDigits x.val).length
  · rw [if_pos h]
    rfl
  · rw [if_neg h, insertSeparators_short]
    simp only [enUS] at h
    omega

theorem toLocaleString_enUS_grouped (x : NaturalNumber) :
    GroupedInThrees [','] (decimalDigits x.val) (toLocaleString enUS x).data := by
  rw [toLocaleString_enUS]
  exact insertSeparators_grouped _ _ (decimalDigits_ne_nil x.val)

theorem ListingCard_ok (loc : Locale) (l : Listing) (first : ListingImage)
    (rest : List ListingImage) (h : l.listing_images = first :: rest) :
    ListingCard loc l = .ok (cardMarkup loc l first) := by
  simp [ListingCard, h]

theorem paragraphTexts_cardMarkup (loc : Locale) (l : Listing) (first : ListingImage) :
    paragraphTexts (cardMarkup loc l first) =
      [l.title, "$" ++ toLocaleString loc l.price, numberToString l.year,
        toLocaleString loc l.mileage ++ " miles", l.transmission.type,
        l.fuel_type.type ++ " "] := by
  simp [cardMarkup, priceParagraph, mileageParagraph, paragraphTexts, paragraphTextsList,
    textContent, textContentList]

/-! ## Claims -/

/-- C1: for every non-empty title and every id, the link target of the card is
`/listing/`, then the slug, then a hyphen, then the id as text, where the slug is the
title in lower case with every maximal run of white space replaced by exactly one
hyphen; so the path starts with `/listing/` and ends with the hyphen and the id. The
slug holds no capital letter `A` to `Z`, and the path is the one router link of the
card. -/
theorem linkTo_eq_slugSpec (title : String) (id : ListingId) (_hne : title ≠ "") :
    linkTo title id = "/listing/" ++ slugSpec title ++ "-" ++ id.toTemplate ∧
    "/listing/".data <+: (linkTo title id).data ∧
    ("-" ++ id.toTemplate).data <:+ (linkTo title id).data ∧
    (∀ c ∈ (slugSpec title).data, c.isUpper = false) ∧
    (∀ (loc : Locale) (l : Listing) (first : ListingImage),
      l.title = title → l.id = id →
        routerLinks (cardMarkup loc l first) =
          ["/listing/" ++ slugSpec title ++ "-" ++ id.toTemplate]) := by
  refine ⟨by rw [linkTo, slug_eq_slugSpec], ?_, ?_, ?_, ?_⟩
  · exact ⟨(slug title ++ "-" ++ id.toTemplate).data, by simp [linkTo, String.data_append]⟩
  · exact ⟨("/listing/" ++ slug title).data, by simp [linkTo, String.data_append]⟩
  · intro c hc
    rw [← slug_eq_slugSpec] at hc
    simp only [slug, replaceWhiteSpace, toLowerCase] at hc
    rcases mem_replaceWhiteSpaceFrom _ _ _ _ hc with h | ⟨_, h⟩
    · have : c = '-' := by simpa using h
      rw [this]; decide
    · exact isUpper_of_mem_toLowerCaseFrom _ _ _ h
  · intro loc l first ht hi
    rw [← slug_eq_slugSpec, ← ht, ← hi]
    simp [cardMarkup, priceParagraph, mileageParagraph, routerLinks, routerLinksList, linkTo]

/-- Witness of C1: the title `Classic Mustang 1967` with id 42; the titles `CITROËN DS`
and `İstanbul`, with capitals outside the Basic Latin block; and a Greek title with a
capital sigma inside a word and at the end of one. -/
theorem linkTo_eq_slugSpec_witness :
    linkTo "Classic Mustang 1967" (.num 42) = "/listing/classic-mustang-1967-42" ∧
    slugSpec "Classic Mustang 1967" = "classic-mustang-1967" ∧
    linkTo "CITROËN DS" (.num 42) = "/listing/citroën-ds-42" ∧
    (slug "İstanbul").data = 'i' :: Char.ofNat 0x307 :: "stanbul".data ∧
    slug "ΟΔΟΣ ΣΟΦΙΑΣ" = "οδος-σοφιας" ∧
    routerLinks (cardMarkup enUS exampleListing ⟨"/media/mustang-front.jpg"⟩) =
      ["/listing/classic-mustang-1967-42"] ∧
    "/listing/".data <+: (linkTo "Classic Mustang 1967" (.num 42)).data ∧
    ("-" ++ (ListingId.num 42).toTemplate).data <:+
      (linkTo "Classic Mustang 1967" (.num 42)).data ∧
    Char.isUpper 'c' = false :=
  ⟨by decide, by decide, by decide, by decide, by decide, by decide,
    (linkTo_eq_slugSpec "Classic Mustang 1967" (.num 42) (by decide)).2.1,
    (linkTo_eq_slugSpec "Classic Mustang 1967" (.num 42) (by decide)).2.2.1,
    (linkTo_eq_slugSpec "Classic Mustang 1967" (.num 42) (by decide)).2.2.2.1 'c' (by decide)⟩

/-- C2: leading and trailing white space is not trimmed. When the title is a non-empty
run `ws` of white space followed by a text `rest` that does not begin with white space,
the slug is one hyphen followed by the slug of `rest`, and that remainder begins with a
hyphen only where `rest` itself begins with one; likewise a trailing run `ws` becomes one
hyphen at the end of the slug. -/
theorem slug_outer_runs (ws rest : List Char) (hne : ws ≠ [])
    (hws : ws.all isWhiteSpace = true) :
    (startsWithWhiteSpace rest = false →
      slug ⟨ws ++ rest⟩ = "-" ++ slug ⟨rest⟩ ∧
      ((slug ⟨rest⟩).data.head? = some '-' ↔ rest.head? = some '-')) ∧
    (endsWithWhiteSpace rest = false →
      slug ⟨rest ++ ws⟩ = slug ⟨rest⟩ ++ "-" ∧
      ((slug ⟨rest⟩).data.getLast? = some '-' ↔ rest.getLast? = some '-')) := by
  have hws2 : ∀ c ∈ ws, isWhiteSpace c = true := List.all_eq_true.1 hws
  constructor
  · intro hrest
    constructor
    · apply String.ext
      simp only [slug, replaceWhiteSpace, toLowerCase, String.data_append]
      rw [toLowerCaseFrom_leading ws rest hws2]
      exact replaceWhiteSpaceFrom_leading _ _ _ hne hws2
        (startsWithWhiteSpace_toLowerCaseFrom rest hrest)
    · cases rest with
      | nil => simp [slug, replaceWhiteSpace, toLowerCase, toLowerCaseFrom, replaceWhiteSpaceFrom]
      | cons c cs =>
        have hc : isWhiteSpace c = false := hrest
        obtain ⟨out, hout, heq⟩ := toLowerCaseFrom_cons false c cs
        obtain ⟨hne2, _, _, hplain⟩ := hout
        obtain ⟨h1, h2, _⟩ := hplain hc
        simp only [slug, replaceWhiteSpace, toLowerCase]
        rw [heq, replaceWhiteSpaceFrom_plain _ out h1]
        cases out with
        | nil => exact absurd rfl hne2
        | cons d ds => simpa using h2
  · intro hrest
    constructor
    · apply String.ext
      simp only [slug, replaceWhiteSpace, toLowerCase, String.data_append]
      rw [toLowerCaseFrom_trailing ws hws2 rest false]
      exact replaceWhiteSpaceFrom_trailing _ _ _ hne hws2
        (endsWithWhiteSpace_toLowerCaseFrom rest hrest)
    · rcases List.eq_nil_or_concat rest with h | ⟨init, x, h⟩
      · subst h
        simp [slug, replaceWhiteSpace, toLowerCase, toLowerCaseFrom, replaceWhiteSpaceFrom]
      · rw [List.concat_eq_append] at h
        subst h
        have hx : isWhiteSpace x = false := by
          simpa [endsWithWhiteSpace, startsWithWhiteSpace] using hrest
        obtain ⟨pre, out, hout, heq⟩ := toLowerCaseFrom_last x init false
        obtain ⟨hne2, _, _, hplain⟩ := hout
        obtain ⟨h1, _, h3⟩ := hplain hx
        simp only [slug, replaceWhiteSpace, toLowerCase]
        rw [heq, replaceWhiteSpaceFrom_append_plain _ out h1]
        rw [List.getLast?_append_of_ne_nil _ hne2]
        simpa using h3

/-- Witness of C2: the title of the specification, two leading spaces, three inner ones
and one trailing space, with id 7. -/
theorem slug_outer_runs_witness :
    linkTo "  Multiple   Spaces " (.num 7) = "/listing/-multiple-spaces--7" ∧
    slug ⟨"  ".data ++ "Multiple   Spaces ".data⟩ = "-" ++ slug ⟨"Multiple   Spaces ".data⟩ ∧
    slug ⟨"  Multiple   Spaces".data ++ " ".data⟩ =
      slug ⟨"  Multiple   Spaces".data⟩ ++ "-" :=
  ⟨by decide,
    ((slug_outer_runs "  ".data "Multiple   Spaces ".data (by decide) (by decide)).1
      (by decide)).1,
    ((slug_outer_runs " ".data "  Multiple   Spaces".data (by decide) (by decide)).2
      (by decide)).1⟩

/-- Counterexample to C3 as stated: for the empty title and id 42 the text after
`/listing/` is `-42`, not `42`. -/
theorem empty_title_counterexample :
    linkTo "" (.num 42) = "/listing/-42" ∧
    linkTo "" (.num 42) ≠ "/listing/" ++ (ListingId.num 42).toTemplate := by
  decide

/-- C3, amended: for the empty title the slug is empty and, for every id, the text that
follows `/listing/` in the link target is a hyphen followed by the id as text. -/
theorem linkTo_empty_title (id : ListingId) :
    slug "" = "" ∧ linkTo "" id = "/listing/" ++ ("-" ++ id.toTemplate) := by
  refine ⟨by decide, ?_⟩
  apply String.ext
  simp [linkTo, slug, replaceWhiteSpace, toLowerCase, toLowerCaseFrom, replaceWhiteSpaceFrom,
    String.data_append]

/-- Counterexample to C9 as stated: the slug of `50% Off/A?#` keeps `%`, `/`, `?` and
`#`, none of which is safe in a URL path segment. -/
theorem slug_not_urlSafe :
    slug "50% Off/A?#" = "50%-off/a?#" ∧
    ¬ (∀ c ∈ (slug "50% Off/A?#").data, urlSafe c = true) := by
  decide

/-- C9, amended: for every title the slug contains no white-space character (other
characters of the title, such as `/`, `?`, `#` and `%`, are kept). -/
theorem slug_no_whiteSpace (title : String) :
    ∀ c ∈ (slug title).data, isWhiteSpace c = false := by
  intro c hc
  simp only [slug, replaceWhiteSpace] at hc
  rcases mem_replaceWhiteSpaceFrom _ _ _ _ hc with h | ⟨h1, _⟩
  · have : c = '-' := by simpa using h
    subst this
    decide
  · exact h1

/-- Witness of C9: the space of `50% Off/A?#` is gone from the slug, the `%` is not. -/
theorem slug_no_whiteSpace_witness :
    '%' ∈ (slug "50% Off/A?#").data ∧ isWhiteSpace '%' = false :=
  ⟨by decide, slug_no_whiteSpace "50% Off/A?#" '%' (by decide)⟩

/-- Counterexample to C4 as stated: the integer id 7 and the string id `7` are different
ids, yet two listings with the same title that carry them get the same link target. -/
theorem linkTo_mixed_ids_collide :
    ListingId.num 7 ≠ ListingId.str "7" ∧
    linkTo "Classic Mustang" (.num 7) = linkTo "Classic Mustang" (.str "7") := by
  decide

/-- C4, amended: for every title and two different ids, where in case one is an integer
and the other a string the string is not the text of the integer, the two link targets
are different, and both are the common prefix `/listing/`, slug, hyphen followed by the
text of the respective id. -/
theorem linkTo_distinct_ids (title : String) (id1 id2 : ListingId) (hne : id1 ≠ id2)
    (hmixed : sameKind id1 id2 = false → id1.toTemplate ≠ id2.toTemplate) :
    linkTo title id1 ≠ linkTo title id2 ∧
    linkTo title id1 = ("/listing/" ++ slug title ++ "-") ++ id1.toTemplate ∧
    linkTo title id2 = ("/listing/" ++ slug title ++ "-") ++ id2.toTemplate ∧
    id1.toTemplate ≠ id2.toTemplate := by
  have htext : id1.toTemplate ≠ id2.toTemplate := by
    cases hk : sameKind id1 id2 with
    | false => exact hmixed hk
    | true => exact fun h => hne (toTemplate_injective_sameKind id1 id2 hk h)
  refine ⟨?_, rfl, rfl, htext⟩
  intro h
  have hd := congrArg String.data h
  rw [linkTo_data, linkTo_data] at hd
  have := List.append_cancel_left hd
  simp only [List.cons.injEq, true_and] at this
  exact htext (String.ext this)

/-- Witness of C4: the title `Classic Mustang` with the integer ids 7 and 8. -/
theorem linkTo_distinct_ids_witness :
    linkTo "Classic Mustang" (.num 7) ≠ linkTo "Classic Mustang" (.num 8) ∧
    linkTo "Classic Mustang" (.num 7)
      = ("/listing/" ++ slug "Classic Mustang" ++ "-") ++ (ListingId.num 7).toTemplate ∧
    linkTo "Classic Mustang" (.num 8)
      = ("/listing/" ++ slug "Classic Mustang" ++ "-") ++ (ListingId.num 8).toTemplate ∧
    (ListingId.num 7).toTemplate ≠ (ListingId.num 8).toTemplate :=
  linkTo_distinct_ids "Classic Mustang" (.num 7) (.num 8) (by decide)
    (fun h => absurd h (by decide))

/-- Counterexample to C10 as stated: for the integer id `10^21` the link target is
`/listing/a-1e+21`, and the text after its last hyphen, `1e+21`, is not the decimal
representation of the id. -/
theorem afterLast_exponent_id :
    linkTo "a" (.num 1000000000000000000000) = "/listing/a-1e+21" ∧
    afterLast '-' (linkTo "a" (.num 1000000000000000000000)) = "1e+21" ∧
    afterLast '-' (linkTo "a" (.num 1000000000000000000000))
      ≠ Nat.repr 1000000000000000000000 := by
  decide

/-- C10, amended: for every title and every non-negative integer id, the link target is
`/listing/`, slug and a hyphen followed by the text `Number::toString` gives the id, and
that text is what follows the last hyphen of the path; for an id below `2^53` it is the
decimal representation of the id. Two listings with different non-negative integer ids
have different link targets, whatever their titles. -/
theorem afterLast_linkTo (t1 t2 : String) (n m : NaturalNumber) :
    linkTo t1 (.num n.toInteger) = ("/listing/" ++ slug t1 ++ "-") ++ ⟨naturalToString n.val⟩ ∧
    afterLast '-' (linkTo t1 (.num n.toInteger)) = ⟨naturalToString n.val⟩ ∧
    (n.val < 2 ^ 53 → afterLast '-' (linkTo t1 (.num n.toInteger)) = Nat.repr n.val) ∧
    (n ≠ m → linkTo t1 (.num n.toInteger) ≠ linkTo t2 (.num m.toInteger)) := by
  refine ⟨rfl, afterLast_linkTo_natural t1 n, ?_, ?_⟩
  · intro hn
    rw [afterLast_linkTo_natural, naturalToString_exact n.val hn]
    rfl
  · intro hnm h
    have h1 := afterLast_linkTo_natural t1 n
    rw [h, afterLast_linkTo_natural t2 m] at h1
    have hd : naturalToString m.val = naturalToString n.val := congrArg String.data h1
    exact hnm (naturalNumber_eq_of_val n m
      (naturalToString_injective m.val n.val (isDouble_round _ m.finite)
        (isDouble_round _ n.finite) hd).symm)

/-- Witness of C10: a title with hyphens and digits in it, ids 42 and 43. -/
theorem afterLast_linkTo_witness :
    afterLast '-' (linkTo "Mercedes-Benz 300 SL" (.num (42 : NaturalNumber).toInteger)) = "42" ∧
    linkTo "Mercedes-Benz 300 SL" (.num (42 : NaturalNumber).toInteger)
      ≠ linkTo "Porsche 356" (.num (43 : NaturalNumber).toInteger) :=
  ⟨(afterLast_linkTo "Mercedes-Benz 300 SL" "Porsche 356" 42 43).2.2.1 (by decide),
    (afterLast_linkTo "Mercedes-Benz 300 SL" "Porsche 356" 42 43).2.2.2 (by decide)⟩

/-- Counterexample to C5 as stated: on a host whose default locale is de-DE the card
shows the price 125000 as `$125.000`; and under en-US the price `2^64` is shown as
`$18,446,744,073,709,552,000`, whose digits are not the decimal digits
18446744073709551616 of the price. -/
theorem price_display_counterexample :
    (∃ node, ListingCard deDE exampleListing = .ok node ∧
      (paragraphTexts node)[1]? = some "$125.000") ∧
    (∃ node, ListingCard enUS { exampleListing with price := 18446744073709551616 } = .ok node ∧
      (paragraphTexts node)[1]? = some "$18,446,744,073,709,552,000") ∧
    (18446744073709551616 : NaturalNumber).val = 2 ^ 64 ∧
    Nat.toDigits 10 (2 ^ 64) = "18446744073709551616".data :=
  ⟨⟨_, rfl, by decide⟩, ⟨_, rfl, by decide⟩, by decide, by decide⟩

/-- C5, amended: when the default locale of the host is en-US, for every listing with an
image the second paragraph of the card is a dollar sign followed by decimal digits
grouped in threes from the right with a comma between groups; the digits denote a
number that converts to the price, and for a price below `2^53` they are exactly the
decimal digits of the price. -/
theorem price_display (l : Listing) (first : ListingImage) (rest : List ListingImage)
    (himg : l.listing_images = first :: rest) :
    ∃ node shown, ListingCard enUS l = .ok node ∧
      (paragraphTexts node)[1]? = some ("$" ++ ⟨shown⟩) ∧
      GroupedInThrees [','] (decimalDigits l.price.val) shown ∧
      roundToDouble (decimalValue (decimalDigits l.price.val)) = l.price.val ∧
      (l.price.val < 2 ^ 53 →
        decimalDigits l.price.val = Nat.toDigits 10 l.price.val ∧
        decimalValue (decimalDigits l.price.val) = l.price.val) := by
  refine ⟨cardMarkup enUS l first, (toLocaleString enUS l.price).data,
    ListingCard_ok enUS l first rest himg, ?_, toLocaleString_enUS_grouped l.price,
    decimalDigits_value _ (isDouble_round _ l.price.finite), ?_⟩
  · rw [paragraphTexts_cardMarkup]
    rfl
  · intro h
    have := decimalDigits_exact l.price.val h
    exact ⟨this, by rw [this, decimalValue_toDigits]⟩

/-- Witness of C5: the example listing, price 125000, is shown as `$125,000`. -/
theorem price_display_witness :
    (paragraphTexts (cardMarkup enUS exampleListing ⟨"/media/mustang-front.jpg"⟩))[1]?
      = some "$125,000" ∧
    ∃ node shown, ListingCard enUS exampleListing = .ok node ∧
      (paragraphTexts node)[1]? = some ("$" ++ ⟨shown⟩) ∧
      GroupedInThrees [','] (decimalDigits exampleListing.price.val) shown ∧
      decimalDigits exampleListing.price.val = Nat.toDigits 10 exampleListing.price.val := by
  obtain ⟨node, shown, h1, h2, h3, _, h5⟩ :=
    price_display exampleListing ⟨"/media/mustang-front.jpg"⟩ [⟨"/media/mustang-rear.jpg"⟩] rfl
  exact ⟨by decide, node, shown, h1, h2, h3, (h5 (by decide)).1⟩

/-- Counterexample to C6 as stated: on a host whose default locale is de-DE the card
shows the mileage 54321 as `54.321 miles`; and under en-US the mileage `2^64` is shown
as `18,446,744,073,709,552,000 miles`, whose digits are not the decimal digits
18446744073709551616 of the mileage. -/
theorem mileage_display_counterexample :
    (∃ node, ListingCard deDE exampleListing = .ok node ∧
      (paragraphTexts node)[3]? = some "54.321 miles") ∧
    (∃ node, ListingCard enUS { exampleListing with mileage := 18446744073709551616 } = .ok node ∧
      (paragraphTexts node)[3]? = some "18,446,744,073,709,552,000 miles") ∧
    (18446744073709551616 : NaturalNumber).val = 2 ^ 64 ∧
    Nat.toDigits 10 (2 ^ 64) = "18446744073709551616".data :=
  ⟨⟨_, rfl, by decide⟩, ⟨_, rfl, by decide⟩, by decide, by decide⟩

/-- C6, amended: when the default locale of the host is en-US, for every listing with an
image the fourth paragraph of the card is decimal digits grouped in threes from the
right with a comma between groups, followed by one space and the word `miles`; the
digits denote a number that converts to the mileage, and for a mileage below `2^53` they
are exactly the decimal digits of the mileage. -/
theorem mileage_display (l : Listing) (first : ListingImage) (rest : List ListingImage)
    (himg : l.listing_images = first :: rest) :
    ∃ node shown, ListingCard enUS l = .ok node ∧
      (paragraphTexts node)[3]? = some (⟨shown⟩ ++ " miles") ∧
      GroupedInThrees [','] (decimalDigits l.mileage.val) shown ∧
      roundToDouble (decimalValue (decimalDigits l.mileage.val)) = l.mileage.val ∧
      (l.mileage.val < 2 ^ 53 →
        decimalDigits l.mileage.val = Nat.toDigits 10 l.mileage.val ∧
        decimalValue (decimalDigits l.mileage.val) = l.mileage.val) := by
  refine ⟨cardMarkup enUS l first, (toLocaleString enUS l.mileage).data,
    ListingCard_ok enUS l first rest himg, ?_, toLocaleString_enUS_grouped l.mileage,
    decimalDigits_value _ (isDouble_round _ l.mileage.finite), ?_⟩
  · rw [paragraphTexts_cardMarkup]
    rfl
  · intro h
    have := decimalDigits_exact l.mileage.val h
    exact ⟨this, by rw [this, decimalValue_toDigits]⟩

/-- Witness of C6: the example listing, mileage 54321, is shown as `54,321 miles`. -/
theorem mileage_display_witness :
    (paragraphTexts (cardMarkup enUS exampleListing ⟨"/media/mustang-front.jpg"⟩))[3]?
      = some "54,321 miles" ∧
    ∃ node shown, ListingCard enUS exampleListing = .ok node ∧
      (paragraphTexts node)[3]? = some (⟨shown⟩ ++ " miles") ∧
      GroupedInThrees [','] (decimalDigits exampleListing.mileage.val) shown ∧
      decimalDigits exampleListing.mileage.val
        = Nat.toDigits 10 exampleListing.mileage.val := by
  obtain ⟨node, shown, h1, h2, h3, _, h5⟩ :=
    mileage_display exampleListing ⟨"/media/mustang-front.jpg"⟩ [⟨"/media/mustang-rear.jpg"⟩]
      rfl
  exact ⟨by decide, node, shown, h1, h2, h3, (h5 (by decide)).1⟩

/-- C7: `Footer` has no props, and whatever address the logo has, the router links it
renders are exactly `/search`, `/return-policy`, `/privacy-policy`, `/shipping` and
`/contact-us`, in this order: five links and no other. -/
theorem Footer_routerLinks (logoNoBg : String) :
    routerLinks (Footer logoNoBg) =
      ["/search", "/return-policy", "/privacy-policy", "/shipping", "/contact-us"] ∧
    (routerLinks (Footer logoNoBg)).length = 5 := by
  constructor <;> rfl

/-- C8: for every listing (all other fields well-formed), rendering the card throws if
and only if `listing_images` is empty; when `listing_images` is `first` followed by any
`rest`, rendering succeeds and the only image of the card has `first.path` as source,
whatever `rest` is. -/
theorem ListingCard_images (loc : Locale) (l : Listing) :
    ((∃ e, ListingCard loc l = .error e) ↔ l.listing_images = []) ∧
    (∀ first rest, l.listing_images = first :: rest →
      ∃ node, ListingCard loc l = .ok node ∧ imageSources node = [some first.path]) := by
  constructor
  · cases h : l.listing_images with
    | nil => simp [ListingCard, h]
    | cons first rest => simp [ListingCard, h]
  · intro first rest h
    refine ⟨cardMarkup loc l first, by simp [ListingCard, h], ?_⟩
    simp [cardMarkup, priceParagraph, mileageParagraph, imageSources, imageSourcesList,
      attribute?]

/-- Witness of C8: a listing with two images renders, and the image source is the path
of the first one. -/
theorem ListingCard_images_witness :
    ∃ node, ListingCard enUS exampleListing = .ok node ∧
      imageSources node = [some "/media/mustang-front.jpg"] :=
  (ListingCard_images enUS exampleListing).2 ⟨"/media/mustang-front.jpg"⟩
    [⟨"/media/mustang-rear.jpg"⟩] rfl

end CarsInquires
